import Mathlib

/-!
# Verification of the Auto-PPT-Generator core against its specification

Shallow embedding of the repository's Python core (`app/schemas.py`,
`app/parser.py`, `app/main.py`, `app/template_utils.py`) in Lean 4.

Python strings are modelled as `List Char`.  Character-class predicates
(`\s`, `\w` of Python's `re` module, `str.strip`, `str.splitlines`) are
modelled on their exact ASCII/Unicode member lists as documented for
CPython; `str.lower` is modelled on ASCII (all canonical layout names,
archetype keywords and regex character classes in the source are ASCII).
-/

namespace AutoPPT

/-- Python strings, modelled as lists of characters. -/
abbrev Str := List Char

/-- Characters matched by Python's `\s` / `str.isspace` (the whitespace
set used by `str.strip` and `re.sub(r"\s+", ...)`), by code point. -/
def isPySpace (c : Char) : Bool :=
  c.toNat = 0x20 || c.toNat = 0x09 || c.toNat = 0x0a || c.toNat = 0x0d ||
  c.toNat = 0x0b || c.toNat = 0x0c ||
  c.toNat = 0x1c || c.toNat = 0x1d || c.toNat = 0x1e || c.toNat = 0x1f ||
  c.toNat = 0x85 || c.toNat = 0xa0 ||
  c.toNat = 0x1680 ||
  (0x2000 ≤ c.toNat && c.toNat ≤ 0x200a) ||
  c.toNat = 0x2028 || c.toNat = 0x2029 || c.toNat = 0x202f || c.toNat = 0x205f ||
  c.toNat = 0x3000

/-- ASCII model of Python's `\w` (regex word character): `[a-zA-Z0-9_]`. -/
def isPyWord (c : Char) : Bool :=
  (0x61 ≤ c.toNat && c.toNat ≤ 0x7a) || (0x41 ≤ c.toNat && c.toNat ≤ 0x5a) ||
  (0x30 ≤ c.toNat && c.toNat ≤ 0x39) || c.toNat = 0x5f

/-- `str.lstrip()` : drop leading whitespace. -/
def pyLstrip (s : Str) : Str := s.dropWhile isPySpace

/-- `str.rstrip()` : drop trailing whitespace. -/
def pyRstrip (s : Str) : Str := (s.reverse.dropWhile isPySpace).reverse

/-- `str.strip()` : drop leading and trailing whitespace. -/
def pyStrip (s : Str) : Str := pyRstrip (pyLstrip s)

/-- ASCII model of `str.lower()`. -/
def pyLower (s : Str) : Str := s.map Char.toLower

/-- Python `needle in haystack` for strings (substring test). -/
def pyIn (needle haystack : Str) : Bool := decide (needle <:+: haystack)

/-! ## `app/schemas.py` — Sanitizer / Validator

Environment-sourced constants are modelled at their defaults:
`MAX_BULLETS_PER_SLIDE = 7`, `MAX_TITLE_CHARS = 200`,
`MAX_BULLET_CHARS = 200`, `MAX_NOTES_CHARS = 600`, `MAX_TOTAL_SLIDES = 60`. -/

/-- `schemas._strip_controls`: keep `\n`, `\t` and all characters ≥ 32. -/
def stripControls (s : Str) : Str :=
  s.filter (fun c => c = '\n' || c = '\t' || 32 ≤ c.val)

/-- Whitespace-run collapsing; `prevSp` records whether the previous
input character was whitespace (whose run already emitted one space). -/
def collapseAux : Bool → Str → Str
  | _, [] => []
  | prevSp, c :: rest =>
    if isPySpace c then
      if prevSp then collapseAux true rest else ' ' :: collapseAux true rest
    else c :: collapseAux false rest

/-- `schemas._collapse_ws` / `parser._collapse_ws`:
`re.sub(r"\s+", " ", s.strip())`. -/
def collapseWs (s : Str) : Str := collapseAux false (pyStrip s)

/-- `schemas._clean_text`: strip controls, collapse whitespace, clamp to
`limit` with an ellipsis marker (`s[: max(0, limit - 1)].rstrip() + "…"`). -/
def cleanText (s : Str) (limit : Nat) : Str :=
  let t := collapseWs (stripControls s)
  if t.length ≤ limit then t else pyRstrip (t.take (limit - 1)) ++ ['…']

/-- `schemas._dedup_keep_order` / `parser._dedup_preserve_order`,
with the accumulated `seen` set made explicit. -/
def dedupKeepOrder (seen : List Str) : List Str → List Str
  | [] => []
  | x :: xs =>
    if x ∈ seen then dedupKeepOrder seen xs
    else x :: dedupKeepOrder (x :: seen) xs

def pyDedup (l : List Str) : List Str := dedupKeepOrder [] l

/-- Line-break characters recognised by `str.splitlines`. -/
def isLineBreak (c : Char) : Bool :=
  c.toNat = 0x0a || c.toNat = 0x0d || c.toNat = 0x0b || c.toNat = 0x0c ||
  c.toNat = 0x1c || c.toNat = 0x1d || c.toNat = 0x1e || c.toNat = 0x85 ||
  c.toNat = 0x2028 || c.toNat = 0x2029

/-- Collapse each `"\r\n"` pair into a single `'\n'` (Python's
`splitlines` treats the pair as one break). -/
def crlf : Str → Str
  | [] => []
  | [c] => [c]
  | c :: d :: rest =>
    if c = '\r' ∧ d = '\n' then '\n' :: crlf rest else c :: crlf (d :: rest)

/-- Split at every line-break character, keeping empty pieces. -/
def splitOnBreaks : Str → Str → List Str
  | acc, [] => [acc.reverse]
  | acc, c :: rest =>
    if isLineBreak c then acc.reverse :: splitOnBreaks [] rest
    else splitOnBreaks (c :: acc) rest

/-- `str.splitlines()`: split on line breaks (with `"\r\n"` counting as
one break); a trailing break produces no trailing empty line. -/
def splitLines (s : Str) : List Str :=
  if s = [] then []
  else if (crlf s).getLast?.any isLineBreak then (splitOnBreaks [] (crlf s)).dropLast
  else splitOnBreaks [] (crlf s)

/-- The six canonical layout names. -/
inductive LayoutName where
  | auto
  | titleAndContent
  | twoContent
  | contentWithCaption
  | pictureWithCaption
  | blank
deriving DecidableEq, Repr

/-- Canonical spelling of each layout name (`schemas._CANONICAL_LAYOUTS`). -/
def dumpLayout : LayoutName → Str
  | .auto => "auto".data
  | .titleAndContent => "Title and Content".data
  | .twoContent => "Two Content".data
  | .contentWithCaption => "Content with Caption".data
  | .pictureWithCaption => "Picture with Caption".data
  | .blank => "Blank".data

/-- `schemas._canonical_layout` with the `_LAYOUT_ALIASES` table;
unknown names default to `auto`. -/
def canonicalLayout (name : Str) : LayoutName :=
  if name = [] then .auto else
  let key := pyLower (pyStrip name)
  if key = "auto".data then .auto
  else if key = "title and content".data then .titleAndContent
  else if key = "two content".data then .twoContent
  else if key = "two-content".data then .twoContent
  else if key = "twocontents".data then .twoContent
  else if key = "content with caption".data then .contentWithCaption
  else if key = "picture with caption".data then .pictureWithCaption
  else if key = "blank".data then .blank
  else .auto

/-- The JSON shapes accepted for a slide's `bullets` field. -/
inductive RawBullets where
  | none
  | str (s : Str)
  | list (l : List Str)
deriving DecidableEq, Repr

/-- The line-splitting and stripping stage of `schemas._coerce_bullets`. -/
def coerceBulletsRaw : RawBullets → List Str
  | .none => []
  | .str s => (splitLines s).map pyStrip
  | .list l => (l.flatMap splitLines).map pyStrip

/-- `schemas._coerce_bullets` (the `bullets` before-validator). -/
def coerceBullets (v : RawBullets) : List Str :=
  (pyDedup (((((coerceBulletsRaw v).filter
      (fun b => b ≠ [] && pyStrip b ≠ [])).map (cleanText · 200)).filter (· ≠ []))) ).take 7

/-- `OutlineSlide._v_bullets_after`. -/
def vBulletsAfter (v : List Str) : List Str :=
  (pyDedup ((v.filter (fun b => b ≠ [] && pyStrip b ≠ [])).map (cleanText · 200))).take 7

/-- `OutlineSlide._v_title`. -/
def vSlideTitle (v : Str) : Str :=
  let t := cleanText (pyStrip v) 200
  if t = [] then "Slide".data else t

/-- `OutlineSlide._v_notes`. -/
def vNotes : Option Str → Option Str
  | Option.none => Option.none
  | Option.some v =>
      if cleanText v 600 = [] then Option.none else Option.some (cleanText v 600)

/-- A validated slide. -/
structure OutlineSlide where
  title : Str
  bullets : List Str
  layout : LayoutName
  notes : Option Str
deriving DecidableEq, Repr

/-- Constructing a pydantic `OutlineSlide(...)`: all field validators run. -/
def mkSlide (title : Str) (bullets : RawBullets) (layout : Str)
    (notes : Option Str) : OutlineSlide :=
  { title := vSlideTitle title
    bullets := vBulletsAfter (coerceBullets bullets)
    layout := canonicalLayout layout
    notes := vNotes notes }

/-- `Outline._v_title`. -/
def vOutlineTitle (v : Str) : Str :=
  let t := cleanText (pyStrip v) 200
  if t = [] then "Presentation".data else t

/-- The keep-condition of `Outline._v_slides_after`. -/
def slideNonEmpty (s : OutlineSlide) : Bool :=
  (s.title ≠ [] && pyStrip s.title ≠ []) ||
  (s.bullets ≠ [] && s.bullets.any (fun b => pyStrip b ≠ []))

/-- The minimal placeholder slide substituted when all slides are empty. -/
def overviewSlide : OutlineSlide :=
  mkSlide "Overview".data (.list []) "auto".data Option.none

/-- `Outline._v_slides_after`: drop empty slides, substitute the
placeholder if none remain, cap at `MAX_TOTAL_SLIDES = 60`. -/
def vSlidesAfter (slides : List OutlineSlide) : List OutlineSlide :=
  (if slides.filter slideNonEmpty = [] then [overviewSlide]
   else slides.filter slideNonEmpty).take 60

/-- `Outline._m_estimated_count` (the model validator): a missing count is
recomputed as `len(slides)`; a present count is clamped to `[1, 60]`. -/
def mEstimatedCount (slides : List OutlineSlide) : Option Int → Int
  | Option.none => slides.length
  | Option.some d => max 1 (min 60 d)

/-- A validated outline. -/
structure Outline where
  title : Str
  slides : List OutlineSlide
  estimatedSlideCount : Option Int
deriving DecidableEq, Repr

/-- Constructing a pydantic `Outline(...)` from already-validated
`OutlineSlide` values (pydantic does not re-validate model instances,
but the `slides` field validator and the model validator still run). -/
def mkOutline (title : Str) (slides : List OutlineSlide)
    (est : Option Int) : Outline :=
  { title := vOutlineTitle title
    slides := vSlidesAfter slides
    estimatedSlideCount := Option.some (mEstimatedCount (vSlidesAfter slides) est) }

/-- A raw JSON-shaped slide dict. -/
structure RawSlide where
  title : Str
  bullets : RawBullets
  layout : Str
  notes : Option Str
deriving DecidableEq, Repr

/-- Validating a raw JSON-shaped outline dict (`Outline(**raw)`): every
slide dict goes through `OutlineSlide` validation first. -/
def mkOutlineRaw (title : Str) (slides : List RawSlide) (est : Option Int) :
    Outline :=
  mkOutline title (slides.map (fun r => mkSlide r.title r.bullets r.layout r.notes)) est

/-- `model_dump()` of a validated slide, as raw material for re-validation. -/
def dumpSlide (s : OutlineSlide) : RawSlide :=
  { title := s.title
    bullets := .list s.bullets
    layout := dumpLayout s.layout
    notes := s.notes }

/-! ## Claim C1 — `estimated_slide_count` after validation -/

/-- C1 counterexample: a raw outline with one slide but a declared
`estimated_slide_count` of 5 validates to an Outline whose
`estimated_slide_count` is 5, not `len(slides) = 1`: the validator only
clamps a declared numeric value, it does not recompute it. -/
theorem c1_estimated_count_counterexample :
    (mkOutlineRaw "Deck".data
        [⟨"Intro".data, RawBullets.list ["a".data], "auto".data, Option.none⟩]
        (Option.some 5)).estimatedSlideCount ≠
      Option.some ((mkOutlineRaw "Deck".data
        [⟨"Intro".data, RawBullets.list ["a".data], "auto".data, Option.none⟩]
        (Option.some 5)).slides.length : Int) := by decide

/-- C1 (amended): after validation, `estimated_slide_count` equals
`len(slides)` whenever the declared value is missing; a declared numeric
value is not recomputed but clamped into `[1, MAX_TOTAL_SLIDES] = [1, 60]`
(so it may differ from the actual slide count). -/
theorem c1_estimated_count_amended (title : Str) (slides : List RawSlide) :
    ((mkOutlineRaw title slides Option.none).estimatedSlideCount =
      Option.some ((mkOutlineRaw title slides Option.none).slides.length : Int)) ∧
    (∀ n : Int, (mkOutlineRaw title slides (Option.some n)).estimatedSlideCount =
      Option.some (max 1 (min 60 n))) := by
  refine ⟨rfl, fun n => rfl⟩

/-! ## Invariants of `_clean_text` output -/

/-- Every whitespace character in the string is a plain `' '`. -/
def SpacesOk (s : Str) : Prop := ∀ c ∈ s, isPySpace c → c = ' '

/-- No two adjacent space characters. -/
def NoDouble (s : Str) : Prop := List.Chain' (fun a b => ¬(a = ' ' ∧ b = ' ')) s

/-- No control characters: every character has code point ≥ 32. -/
def NoCtl (s : Str) : Prop := ∀ c ∈ s, 32 ≤ c.val

/-- First and last characters are not whitespace. -/
def EdgesOk (s : Str) : Prop :=
  (s.head?.all fun c => !isPySpace c) ∧ (s.getLast?.all fun c => !isPySpace c)

/-- The invariant satisfied by every `_clean_text` output. -/
def CleanStr (s : Str) : Prop := SpacesOk s ∧ NoDouble s ∧ NoCtl s ∧ EdgesOk s



theorem stripControls_eq_self {s : Str} (h : NoCtl s) : stripControls s = s := by
  unfold stripControls
  refine List.filter_eq_self.mpr fun c hc => ?_
  have := h c hc
  simp only [Bool.or_eq_true, decide_eq_true_eq]
  exact Or.inr this

theorem collapseAux_cons_space_false {c : Char} (hc : isPySpace c) (s : Str) :
    collapseAux false (c :: s) = ' ' :: collapseAux true s := by
  simp [collapseAux, hc]

theorem collapseAux_cons_space_true {c : Char} (hc : isPySpace c) (s : Str) :
    collapseAux true (c :: s) = collapseAux true s := by
  simp [collapseAux, hc]

theorem collapseAux_cons_nonspace {c : Char} (hc : ¬ isPySpace c) (b : Bool) (s : Str) :
    collapseAux b (c :: s) = c :: collapseAux false s := by
  simp [collapseAux, hc]

theorem space_isPySpace : isPySpace ' ' = true := by decide

theorem mem_collapseAux {c : Char} :
    ∀ {b : Bool} {s : Str}, c ∈ collapseAux b s → c = ' ' ∨ (c ∈ s ∧ ¬ isPySpace c) := by
  intro b s
  induction s generalizing b with
  | nil => simp [collapseAux]
  | cons a rest ih =>
    intro hmem
    by_cases ha : isPySpace a
    · rcases b with _ | _
      · rw [collapseAux_cons_space_false ha] at hmem
        rcases List.mem_cons.mp hmem with h | h
        · exact Or.inl h
        · rcases ih h with h' | ⟨h1, h2⟩
          · exact Or.inl h'
          · exact Or.inr ⟨List.mem_cons_of_mem _ h1, h2⟩
      · rw [collapseAux_cons_space_true ha] at hmem
        rcases ih hmem with h' | ⟨h1, h2⟩
        · exact Or.inl h'
        · exact Or.inr ⟨List.mem_cons_of_mem _ h1, h2⟩
    · rw [collapseAux_cons_nonspace ha] at hmem
      rcases List.mem_cons.mp hmem with h | h
      · exact Or.inr ⟨by simp [h], by rw [h]; exact ha⟩
      · rcases ih h with h' | ⟨h1, h2⟩
        · exact Or.inl h'
        · exact Or.inr ⟨List.mem_cons_of_mem _ h1, h2⟩

theorem collapseAux_spacesOk (b : Bool) (s : Str) : SpacesOk (collapseAux b s) := by
  intro c hc hsp
  rcases mem_collapseAux hc with h | ⟨_, h2⟩
  · exact h
  · exact absurd hsp h2

theorem collapseAux_noCtl {s : Str} (h : NoCtl s) (b : Bool) :
    NoCtl (collapseAux b s) := by
  intro c hc
  rcases mem_collapseAux hc with h' | ⟨h1, _⟩
  · subst h'; decide
  · exact h c h1

theorem collapseAux_head_true (s : Str) :
    (collapseAux true s).head?.all fun c => !isPySpace c := by
  induction s with
  | nil => simp [collapseAux]
  | cons a rest ih =>
    by_cases ha : isPySpace a
    · rw [collapseAux_cons_space_true ha]; exact ih
    · rw [collapseAux_cons_nonspace ha]
      simpa using ha

theorem collapseAux_head_notSpace {s : Str} (b : Bool)
    (h : s.head?.all fun c => !isPySpace c) :
    (collapseAux b s).head?.all fun c => !isPySpace c := by
  cases s with
  | nil => simp [collapseAux]
  | cons a rest =>
    have ha : ¬ isPySpace a := by simpa using h
    rw [collapseAux_cons_nonspace ha]
    simpa using ha

theorem collapseAux_noDouble (b : Bool) (s : Str) : NoDouble (collapseAux b s) := by
  induction s generalizing b with
  | nil => simp [collapseAux, NoDouble]
  | cons a rest ih =>
    by_cases ha : isPySpace a
    · rcases b with _ | _
      · rw [collapseAux_cons_space_false ha]
        unfold NoDouble
        rw [List.chain'_cons']
        refine ⟨?_, ih true⟩
        intro y hy ⟨_, hy'⟩
        subst hy'
        have hh := collapseAux_head_true rest
        rw [hy] at hh
        simp only [Option.all_some] at hh
        exact absurd space_isPySpace (by simpa using hh)
      · rw [collapseAux_cons_space_true ha]; exact ih true
    · rw [collapseAux_cons_nonspace ha]
      unfold NoDouble
      rw [List.chain'_cons']
      refine ⟨?_, ih false⟩
      intro y hy ⟨ha', _⟩
      rw [ha'] at ha
      exact ha space_isPySpace

theorem collapseAux_true_eq_nil_iff {s : Str} :
    collapseAux true s = [] ↔ ∀ c ∈ s, isPySpace c := by
  induction s with
  | nil => simp [collapseAux]
  | cons a rest ih =>
    by_cases ha : isPySpace a
    · rw [collapseAux_cons_space_true ha]
      simp [ih, ha]
    · rw [collapseAux_cons_nonspace ha]
      simp only [List.cons_ne_nil, false_iff]
      intro hall
      exact ha (hall a (by simp))

theorem collapseAux_false_ne_nil {x : Char} {l : Str} :
    collapseAux false (x :: l) ≠ [] := by
  by_cases hx : isPySpace x
  · rw [collapseAux_cons_space_false hx]; simp
  · rw [collapseAux_cons_nonspace hx]; simp

theorem getLast?_cons_ne_nil {c : Char} {l : Str} (h : l ≠ []) :
    (c :: l).getLast? = l.getLast? := by
  cases l with
  | nil => exact absurd rfl h
  | cons d t => exact List.getLast?_cons_cons ..

theorem collapseAux_getLast {s : Str} (hs : s.getLast?.all fun c => !isPySpace c) :
    ∀ (b : Bool), (collapseAux b s).getLast?.all fun c => !isPySpace c := by
  induction s with
  | nil => intro b; simp [collapseAux]
  | cons a rest ih =>
    intro b
    cases rest with
    | nil =>
      have ha : ¬ isPySpace a := by simpa using hs
      rw [collapseAux_cons_nonspace ha]
      simpa [collapseAux] using ha
    | cons a2 rest2 =>
      have hs' : (a2 :: rest2 : Str).getLast?.all fun c => !isPySpace c := by
        simpa [List.getLast?_cons_cons] using hs
      have hne : collapseAux true (a2 :: rest2) ≠ [] := by
        intro hnil
        rw [collapseAux_true_eq_nil_iff] at hnil
        have hlast := List.getLast_mem (l := (a2 :: rest2 : Str)) (by simp)
        have h1 := hnil _ hlast
        rw [List.getLast?_eq_getLast_of_ne_nil (by simp)] at hs'
        simp only [Option.all_some] at hs'
        exact absurd h1 (by simpa using hs')
      by_cases ha : isPySpace a
      · rcases b with _ | _
        · rw [collapseAux_cons_space_false ha, getLast?_cons_ne_nil hne]
          exact ih hs' true
        · rw [collapseAux_cons_space_true ha]
          exact ih hs' true
      · rw [collapseAux_cons_nonspace ha, getLast?_cons_ne_nil collapseAux_false_ne_nil]
        exact ih hs' false

theorem collapseAux_fix :
    ∀ s : Str, SpacesOk s → NoDouble s →
      collapseAux false s = s ∧ (s.head? ≠ some ' ' → collapseAux true s = s) := by
  intro s
  induction s with
  | nil => exact fun _ _ => ⟨rfl, fun _ => rfl⟩
  | cons a rest ih =>
    intro hsp hnd
    have hsp' : SpacesOk rest := fun c hc => hsp c (List.mem_cons_of_mem _ hc)
    have hnd' : NoDouble rest := (List.chain'_cons'.mp hnd).2
    by_cases ha : isPySpace a
    · have ha' : a = ' ' := hsp a (by simp) ha
      subst ha'
      have hresthead : rest.head? ≠ some ' ' := by
        intro hh
        have := (List.chain'_cons'.mp hnd).1 ' ' hh
        exact this ⟨rfl, rfl⟩
      constructor
      · rw [collapseAux_cons_space_false ha]
        rw [(ih hsp' hnd').2 hresthead]
      · intro hhead
        exact absurd (rfl : ((' ' :: rest : Str)).head? = some ' ') hhead
    · constructor
      · rw [collapseAux_cons_nonspace ha, (ih hsp' hnd').1]
      · intro _
        rw [collapseAux_cons_nonspace ha, (ih hsp' hnd').1]

theorem head?_dropWhile (p : Char → Bool) (l : Str) :
    (l.dropWhile p).head?.all fun c => !p c := by
  induction l with
  | nil => simp
  | cons a rest ih =>
    by_cases ha : p a
    · simpa [List.dropWhile_cons, ha] using ih
    · simp [List.dropWhile_cons, ha]

theorem pyLstrip_head (s : Str) : (pyLstrip s).head?.all fun c => !isPySpace c :=
  head?_dropWhile isPySpace s

theorem pyLstrip_suffix (s : Str) : pyLstrip s <:+ s := List.dropWhile_suffix _

theorem pyRstrip_isPre (s : Str) : pyRstrip s <+: s := by
  have h : s.reverse.dropWhile isPySpace <:+ s.reverse := List.dropWhile_suffix _
  have := List.reverse_prefix.mpr h
  simpa [pyRstrip] using this

theorem pyRstrip_getLast (s : Str) :
    (pyRstrip s).getLast?.all fun c => !isPySpace c := by
  unfold pyRstrip
  rw [List.getLast?_reverse]
  exact head?_dropWhile isPySpace s.reverse

theorem pyStrip_prefix_lstrip (s : Str) : pyStrip s <+: pyLstrip s :=
  pyRstrip_isPre (pyLstrip s)

theorem pyStrip_isInf (s : Str) : pyStrip s <:+: s :=
  (pyStrip_prefix_lstrip s).isInfix.trans (pyLstrip_suffix s).isInfix

theorem isPrefix_head? {l m : Str} (h : l <+: m) (hne : l ≠ []) :
    l.head? = m.head? := by
  rcases h with ⟨t, rfl⟩
  cases l with
  | nil => exact absurd rfl hne
  | cons a l' => simp

theorem pyStrip_head (s : Str) : (pyStrip s).head?.all fun c => !isPySpace c := by
  rcases heq : pyStrip s with _ | ⟨a, t⟩
  · simp
  · have hne : pyStrip s ≠ [] := by rw [heq]; simp
    have := isPrefix_head? (pyStrip_prefix_lstrip s) hne
    rw [← heq, this]
    exact pyLstrip_head s

theorem pyStrip_getLast (s : Str) :
    (pyStrip s).getLast?.all fun c => !isPySpace c :=
  pyRstrip_getLast (pyLstrip s)

theorem pyStrip_edgesOk (s : Str) : EdgesOk (pyStrip s) :=
  ⟨pyStrip_head s, pyStrip_getLast s⟩

theorem pyLstrip_eq_self {s : Str} (h : s.head?.all fun c => !isPySpace c) :
    pyLstrip s = s := by
  cases s with
  | nil => rfl
  | cons a rest =>
    have ha : ¬ isPySpace a := by simpa using h
    simp [pyLstrip, List.dropWhile_cons, ha]

theorem pyRstrip_eq_self {s : Str} (h : s.getLast?.all fun c => !isPySpace c) :
    pyRstrip s = s := by
  unfold pyRstrip
  have hh : s.reverse.head?.all fun c => !isPySpace c := by
    rw [List.head?_reverse]; exact h
  rw [show s.reverse.dropWhile isPySpace = s.reverse from by
        simpa [pyLstrip] using pyLstrip_eq_self hh,
      List.reverse_reverse]

theorem pyStrip_eq_self {s : Str} (h : EdgesOk s) : pyStrip s = s := by
  unfold pyStrip
  rw [pyLstrip_eq_self h.1, pyRstrip_eq_self h.2]

theorem collapseWs_spacesOk (s : Str) : SpacesOk (collapseWs s) :=
  collapseAux_spacesOk false (pyStrip s)

theorem collapseWs_noDouble (s : Str) : NoDouble (collapseWs s) :=
  collapseAux_noDouble false (pyStrip s)

theorem collapseWs_edgesOk (s : Str) : EdgesOk (collapseWs s) :=
  ⟨collapseAux_head_notSpace false (pyStrip_head s),
   collapseAux_getLast (pyStrip_getLast s) false⟩

theorem collapseWs_fix {s : Str} (h1 : SpacesOk s) (h2 : NoDouble s)
    (h3 : EdgesOk s) : collapseWs s = s := by
  unfold collapseWs
  rw [pyStrip_eq_self h3]
  exact (collapseAux_fix s h1 h2).1

/-- Characters of `collapseWs (stripControls s)` all have code ≥ 32. -/
theorem collapseWs_stripControls_noCtl (s : Str) :
    NoCtl (collapseWs (stripControls s)) := by
  intro c hc
  rcases mem_collapseAux hc with h | ⟨h1, h2⟩
  · subst h; decide
  · have hmem : c ∈ stripControls s := ((pyStrip_isInf _).sublist).mem h1
    have := List.of_mem_filter hmem
    simp only [Bool.or_eq_true, decide_eq_true_eq] at this
    rcases this with (h' | h') | h'
    · exact absurd (by rw [h']; decide) h2
    · exact absurd (by rw [h']; decide) h2
    · exact h'

theorem cleanText_clean (s : Str) (limit : Nat) : CleanStr (cleanText s limit) := by
  unfold cleanText
  set t := collapseWs (stripControls s) with ht
  have hts : SpacesOk t := collapseWs_spacesOk _
  have htd : NoDouble t := collapseWs_noDouble _
  have htc : NoCtl t := collapseWs_stripControls_noCtl s
  have hte : EdgesOk t := collapseWs_edgesOk _
  by_cases hlen : t.length ≤ limit
  · rw [if_pos hlen]
    exact ⟨hts, htd, htc, hte⟩
  · rw [if_neg hlen]
    set u := pyRstrip (t.take (limit - 1)) with hu
    have hupfx : u <+: t := (pyRstrip_isPre _).trans (List.take_prefix _ _)
    have husub : u.Sublist t := hupfx.sublist
    refine ⟨?_, ?_, ?_, ?_, ?_⟩
    · intro c hc hsp
      rcases List.mem_append.mp hc with h | h
      · exact hts c (husub.mem h) hsp
      · rcases List.mem_singleton.mp h with rfl
        exact absurd hsp (by decide)
    · have hcu : NoDouble u := List.Chain'.prefix htd hupfx
      unfold NoDouble
      rw [List.chain'_append]
      refine ⟨hcu, by simp [NoDouble], ?_⟩
      intro x _ y hy
      have hy' : y = '…' := by
        have := hy
        simp only [List.head?_cons] at this
        exact (Option.mem_some_iff.mp this).symm
      subst hy'
      intro ⟨_, hbad⟩
      exact absurd hbad (by decide)
    · intro c hc
      rcases List.mem_append.mp hc with h | h
      · exact htc c (husub.mem h)
      · rcases List.mem_singleton.mp h with rfl
        decide
    · rcases hequ : u with _ | ⟨a, v⟩
      · simp +decide
      · rw [← hequ]
        have hne : u ≠ [] := by rw [hequ]; simp
        have h1 : u.head? = t.head? := isPrefix_head? hupfx hne
        have := hte.1
        rw [List.head?_append_of_ne_nil _ hne, h1]
        exact this
    · rw [List.getLast?_append_cons]
      simp +decide

theorem cleanText_length (s : Str) {limit : Nat} (h : 1 ≤ limit) :
    (cleanText s limit).length ≤ limit := by
  unfold cleanText
  set t := collapseWs (stripControls s) with ht
  by_cases hlen : t.length ≤ limit
  · rwa [if_pos hlen]
  · rw [if_neg hlen]
    have h1 : (pyRstrip (t.take (limit - 1))).length ≤ limit - 1 := by
      calc (pyRstrip (t.take (limit - 1))).length
          ≤ (t.take (limit - 1)).length := (pyRstrip_isPre _).sublist.length_le
        _ ≤ limit - 1 := by simp
    rw [List.length_append]
    simp only [List.length_singleton]
    omega

theorem cleanText_fixed {s : Str} {limit : Nat} (hc : CleanStr s)
    (hl : s.length ≤ limit) : cleanText s limit = s := by
  obtain ⟨h1, h2, h3, h4⟩ := hc
  unfold cleanText
  rw [stripControls_eq_self h3, collapseWs_fix h1 h2 h4, if_pos hl]

theorem cleanText_idem (s : Str) {limit : Nat} (h : 1 ≤ limit) :
    cleanText (cleanText s limit) limit = cleanText s limit :=
  cleanText_fixed (cleanText_clean s limit) (cleanText_length s h)

/-- A string that `_clean_text` maps to itself is clean; lets `decide`
establish `CleanStr` for concrete strings. -/
theorem cleanStr_of_cleanText_eq {s : Str} {n : Nat} (h : cleanText s n = s) :
    CleanStr s := h ▸ cleanText_clean s n

/-! ## Deduplication and `splitlines` lemmas -/

theorem mem_dedupKeepOrder {x : Str} :
    ∀ {seen l : List Str}, x ∈ dedupKeepOrder seen l ↔ (x ∈ l ∧ x ∉ seen) := by
  intro seen l
  induction l generalizing seen with
  | nil => simp [dedupKeepOrder]
  | cons a rest ih =>
    by_cases ha : a ∈ seen
    · rw [dedupKeepOrder, if_pos ha, ih]
      constructor
      · rintro ⟨h1, h2⟩
        exact ⟨List.mem_cons_of_mem _ h1, h2⟩
      · rintro ⟨h1, h2⟩
        rcases List.mem_cons.mp h1 with rfl | h1'
        · exact absurd ha h2
        · exact ⟨h1', h2⟩
    · rw [dedupKeepOrder, if_neg ha]
      constructor
      · intro hmem
        rcases List.mem_cons.mp hmem with rfl | h'
        · exact ⟨by simp, ha⟩
        · obtain ⟨h1, h2⟩ := ih.mp h'
          refine ⟨List.mem_cons_of_mem _ h1, fun hx => h2 (List.mem_cons_of_mem _ hx)⟩
      · rintro ⟨h1, h2⟩
        rcases List.mem_cons.mp h1 with rfl | h1'
        · simp
        · by_cases hxa : x = a
          · subst hxa; simp
          · exact List.mem_cons_of_mem _
              (ih.mpr ⟨h1', fun hx => by
                rcases List.mem_cons.mp hx with h | h
                · exact hxa h
                · exact h2 h⟩)

theorem dedupKeepOrder_nodup : ∀ (seen l : List Str), (dedupKeepOrder seen l).Nodup := by
  intro seen l
  induction l generalizing seen with
  | nil => simp [dedupKeepOrder]
  | cons a rest ih =>
    by_cases ha : a ∈ seen
    · rw [dedupKeepOrder, if_pos ha]; exact ih seen
    · rw [dedupKeepOrder, if_neg ha]
      refine List.nodup_cons.mpr ⟨?_, ih (a :: seen)⟩
      intro hmem
      exact (mem_dedupKeepOrder.mp hmem).2 (by simp)

theorem pyDedup_nodup (l : List Str) : (pyDedup l).Nodup := dedupKeepOrder_nodup [] l

theorem dedupKeepOrder_sublist : ∀ (seen l : List Str), (dedupKeepOrder seen l).Sublist l := by
  intro seen l
  induction l generalizing seen with
  | nil => simp [dedupKeepOrder]
  | cons a rest ih =>
    by_cases ha : a ∈ seen
    · rw [dedupKeepOrder, if_pos ha]
      exact (ih seen).cons a
    · rw [dedupKeepOrder, if_neg ha]
      exact (ih (a :: seen)).cons₂ a

theorem pyDedup_sublist (l : List Str) : (pyDedup l).Sublist l := dedupKeepOrder_sublist [] l

theorem dedupKeepOrder_eq_self :
    ∀ {seen l : List Str}, l.Nodup → (∀ x ∈ l, x ∉ seen) → dedupKeepOrder seen l = l := by
  intro seen l
  induction l generalizing seen with
  | nil => intro _ _; rfl
  | cons a rest ih =>
    intro hnd hdisj
    have ha : a ∉ seen := hdisj a (by simp)
    rw [dedupKeepOrder, if_neg ha]
    congr 1
    refine ih (List.nodup_cons.mp hnd).2 fun x hx hmem => ?_
    rcases List.mem_cons.mp hmem with rfl | h
    · exact (List.nodup_cons.mp hnd).1 hx
    · exact hdisj x (List.mem_cons_of_mem _ hx) h

theorem pyDedup_eq_self {l : List Str} (h : l.Nodup) : pyDedup l = l :=
  dedupKeepOrder_eq_self h (by simp)

theorem isLineBreak_isPySpace {c : Char} (h : isLineBreak c) : isPySpace c := by
  simp only [isLineBreak, Bool.or_eq_true, decide_eq_true_eq] at h
  simp only [isPySpace, Bool.or_eq_true, Bool.and_eq_true, decide_eq_true_eq]
  omega

theorem crlf_eq_self : ∀ (s : Str), (∀ c ∈ s, ¬ isLineBreak c) → crlf s = s
  | [], _ => rfl
  | [_], _ => rfl
  | c :: d :: rest, h => by
    have hc : ¬ (c = '\r' ∧ d = '\n') := by
      rintro ⟨rfl, _⟩
      exact (h '\r' (by simp)) (by decide)
    rw [crlf, if_neg hc,
      crlf_eq_self (d :: rest) (fun x hx => h x (List.mem_cons_of_mem _ hx))]

theorem splitOnBreaks_all_nonbreak :
    ∀ (s acc : Str), (∀ c ∈ s, ¬ isLineBreak c) →
      splitOnBreaks acc s = [acc.reverse ++ s] := by
  intro s
  induction s with
  | nil => intro acc _; simp [splitOnBreaks]
  | cons a rest ih =>
    intro acc h
    rw [splitOnBreaks, if_neg (h a (by simp))]
    rw [ih (a :: acc) (fun c hc => h c (List.mem_cons_of_mem _ hc))]
    simp

/-- A non-empty string with no line-break characters splits into itself. -/
theorem splitLines_single {s : Str} (hne : s ≠ [])
    (h : ∀ c ∈ s, ¬ isLineBreak c) : splitLines s = [s] := by
  unfold splitLines
  rw [if_neg hne, crlf_eq_self s h, splitOnBreaks_all_nonbreak s [] h]
  have hlast : ¬ s.getLast?.any isLineBreak = true := by
    cases hl : s.getLast? with
    | none => simp
    | some c =>
      have hc : c ∈ s := by
        cases s with
        | nil => simp at hl
        | cons a t =>
          rw [List.getLast?_eq_getLast_of_ne_nil (by simp)] at hl
          have hmem := List.getLast_mem (l := a :: t) (by simp)
          have heq : (a :: t).getLast (by simp) = c := by
            exact Option.some.inj hl
          rwa [heq] at hmem
      simpa using h c hc
  rw [if_neg hlast]
  simp

/-- Clean strings contain no line-break characters. -/
theorem cleanStr_no_break {s : Str} (h : CleanStr s) :
    ∀ c ∈ s, ¬ isLineBreak c := by
  intro c hc hbr
  have hsp := isLineBreak_isPySpace hbr
  have := h.1 c hc hsp
  subst this
  exact absurd hbr (by decide)

/-! ## Fixed points of the slide/outline validators -/

/-- A bullet string as produced by the validators. -/
def GoodBullet (b : Str) : Prop := CleanStr b ∧ b.length ≤ 200 ∧ b ≠ []

/-- A title as produced by the validators. -/
def GoodTitle (t : Str) : Prop := CleanStr t ∧ t.length ≤ 200 ∧ t ≠ []

/-- Notes as produced by the validators. -/
def GoodNotes : Option Str → Prop
  | Option.none => True
  | Option.some n => CleanStr n ∧ n.length ≤ 600 ∧ n ≠ []

/-- A slide as produced by `OutlineSlide` validation. -/
def GoodSlide (s : OutlineSlide) : Prop :=
  GoodTitle s.title ∧ (∀ b ∈ s.bullets, GoodBullet b) ∧
    s.bullets.Nodup ∧ s.bullets.length ≤ 7 ∧ GoodNotes s.notes

theorem goodBullet_strip {b : Str} (h : GoodBullet b) : pyStrip b = b :=
  pyStrip_eq_self h.1.2.2.2

theorem goodBullet_cleanText {b : Str} (h : GoodBullet b) : cleanText b 200 = b :=
  cleanText_fixed h.1 h.2.1

theorem coerceBullets_good (v : RawBullets) :
    (∀ b ∈ coerceBullets v, GoodBullet b) ∧
      (coerceBullets v).Nodup ∧ (coerceBullets v).length ≤ 7 := by
  unfold coerceBullets
  refine ⟨?_, ?_, ?_⟩
  · intro b hb
    have h1 : b ∈ pyDedup _ := (List.take_prefix _ _).sublist.mem hb
    have h2 := (pyDedup_sublist _).mem h1
    have h3 := List.of_mem_filter h2
    have h4 := List.mem_of_mem_filter h2
    rcases List.mem_map.mp h4 with ⟨x, _, rfl⟩
    refine ⟨cleanText_clean x 200, cleanText_length x (by omega), by simpa using h3⟩
  · exact ((List.take_prefix _ _).sublist).nodup (pyDedup_nodup _)
  · simpa using List.length_take_le 7 _

theorem vBulletsAfter_fixed {v : List Str} (hg : ∀ b ∈ v, GoodBullet b)
    (hnd : v.Nodup) (hlen : v.length ≤ 7) : vBulletsAfter v = v := by
  unfold vBulletsAfter
  have hfil : v.filter (fun b => b ≠ [] && pyStrip b ≠ []) = v := by
    refine List.filter_eq_self.mpr fun b hb => ?_
    have h := hg b hb
    simp [h.2.2, goodBullet_strip h]
  rw [hfil]
  have hmap : v.map (cleanText · 200) = v := by
    rw [show v.map (cleanText · 200) = v.map id from
      List.map_congr_left fun b hb => goodBullet_cleanText (hg b hb), List.map_id]
  rw [hmap, pyDedup_eq_self hnd, List.take_of_length_le hlen]

theorem mkSlide_bullets (t : Str) (bl : RawBullets) (lo : Str) (no : Option Str) :
    (mkSlide t bl lo no).bullets = coerceBullets bl := by
  obtain ⟨h1, h2, h3⟩ := coerceBullets_good bl
  exact vBulletsAfter_fixed h1 h2 h3

theorem vSlideTitle_good (v : Str) : GoodTitle (vSlideTitle v) := by
  unfold vSlideTitle
  by_cases h : cleanText (pyStrip v) 200 = []
  · rw [if_pos h]
    exact ⟨cleanStr_of_cleanText_eq (n := 200) (by decide), by decide, by decide⟩
  · rw [if_neg h]
    exact ⟨cleanText_clean _ 200, cleanText_length _ (by omega), h⟩

theorem vSlideTitle_fixed {t : Str} (h : GoodTitle t) : vSlideTitle t = t := by
  unfold vSlideTitle
  rw [pyStrip_eq_self h.1.2.2.2, cleanText_fixed h.1 h.2.1, if_neg h.2.2]

theorem vNotes_good (n : Option Str) : GoodNotes (vNotes n) := by
  cases n with
  | none => exact trivial
  | some v =>
    have hv : vNotes (Option.some v) =
        if cleanText v 600 = [] then Option.none
        else Option.some (cleanText v 600) := rfl
    rw [hv]
    by_cases h : cleanText v 600 = []
    · rw [if_pos h]; exact trivial
    · rw [if_neg h]
      exact ⟨cleanText_clean _ 600, cleanText_length _ (by omega), h⟩

theorem vNotes_fixed {n : Option Str} (h : GoodNotes n) : vNotes n = n := by
  cases n with
  | none => rfl
  | some v =>
    obtain ⟨h1, h2, h3⟩ := h
    have hv : vNotes (Option.some v) =
        if cleanText v 600 = [] then Option.none
        else Option.some (cleanText v 600) := rfl
    rw [hv, cleanText_fixed h1 h2, if_neg h3]

theorem mkSlide_good (t : Str) (bl : RawBullets) (lo : Str) (no : Option Str) :
    GoodSlide (mkSlide t bl lo no) := by
  obtain ⟨h1, h2, h3⟩ := coerceBullets_good bl
  refine ⟨vSlideTitle_good t, ?_, ?_, ?_, vNotes_good no⟩
  · rw [mkSlide_bullets]; exact h1
  · rw [mkSlide_bullets]; exact h2
  · rw [mkSlide_bullets]; exact h3

theorem canonicalLayout_dumpLayout (l : LayoutName) :
    canonicalLayout (dumpLayout l) = l := by
  cases l <;> decide

theorem flatMap_splitLines_fixed {l : List Str}
    (h : ∀ b ∈ l, GoodBullet b) : l.flatMap splitLines = l := by
  induction l with
  | nil => rfl
  | cons a rest ih =>
    rw [List.flatMap_cons]
    have ha := h a (by simp)
    rw [splitLines_single ha.2.2 (cleanStr_no_break ha.1),
        ih fun b hb => h b (List.mem_cons_of_mem _ hb)]
    rfl

theorem coerceBullets_list_fixed {l : List Str} (hg : ∀ b ∈ l, GoodBullet b)
    (hnd : l.Nodup) (hlen : l.length ≤ 7) : coerceBullets (.list l) = l := by
  unfold coerceBullets
  rw [show coerceBulletsRaw (RawBullets.list l) = (l.flatMap splitLines).map pyStrip from rfl]
  rw [flatMap_splitLines_fixed hg]
  have hstrip : l.map pyStrip = l := by
    rw [show l.map pyStrip = l.map id from
      List.map_congr_left fun b hb => goodBullet_strip (hg b hb), List.map_id]
  rw [hstrip]
  have hfil : l.filter (fun b => b ≠ [] && pyStrip b ≠ []) = l := by
    refine List.filter_eq_self.mpr fun b hb => ?_
    have h := hg b hb
    simp [h.2.2, goodBullet_strip h]
  rw [hfil]
  have hmap : l.map (cleanText · 200) = l := by
    rw [show l.map (cleanText · 200) = l.map id from
      List.map_congr_left fun b hb => goodBullet_cleanText (hg b hb), List.map_id]
  rw [hmap]
  have hfil2 : l.filter (· ≠ []) = l :=
    List.filter_eq_self.mpr fun b hb => by simp [(hg b hb).2.2]
  rw [hfil2, pyDedup_eq_self hnd, List.take_of_length_le hlen]

/-- Re-validating the dump of a validated slide changes nothing. -/
theorem mkSlide_dump_fixed {s : OutlineSlide} (h : GoodSlide s) :
    mkSlide s.title (.list s.bullets) (dumpLayout s.layout) s.notes = s := by
  obtain ⟨ht, hb, hnd, hlen, hn⟩ := h
  unfold mkSlide
  rw [vSlideTitle_fixed ht, canonicalLayout_dumpLayout, vNotes_fixed hn,
      coerceBullets_list_fixed hb hnd hlen, vBulletsAfter_fixed hb hnd hlen]

theorem goodSlide_nonEmpty {s : OutlineSlide} (h : GoodSlide s) :
    slideNonEmpty s = true := by
  unfold slideNonEmpty
  have h1 : s.title ≠ [] := h.1.2.2
  have h2 : pyStrip s.title = s.title := pyStrip_eq_self h.1.1.2.2.2
  simp [h1, h2]

theorem vOutlineTitle_good (v : Str) : GoodTitle (vOutlineTitle v) := by
  unfold vOutlineTitle
  by_cases h : cleanText (pyStrip v) 200 = []
  · rw [if_pos h]
    exact ⟨cleanStr_of_cleanText_eq (n := 200) (by decide), by decide, by decide⟩
  · rw [if_neg h]
    exact ⟨cleanText_clean _ 200, cleanText_length _ (by omega), h⟩

theorem vOutlineTitle_fixed {t : Str} (h : GoodTitle t) : vOutlineTitle t = t := by
  unfold vOutlineTitle
  rw [pyStrip_eq_self h.1.2.2.2, cleanText_fixed h.1 h.2.1, if_neg h.2.2]

theorem overviewSlide_good : GoodSlide overviewSlide :=
  mkSlide_good "Overview".data (.list []) "auto".data Option.none

theorem take_ne_nil_of_ne_nil {l : List OutlineSlide} (h : l ≠ []) {n : Nat}
    (hn : 0 < n) : l.take n ≠ [] := by
  cases l with
  | nil => exact absurd rfl h
  | cons a t =>
    cases n with
    | zero => omega
    | succ m => simp

theorem vSlidesAfter_good {slides : List OutlineSlide}
    (h : ∀ s ∈ slides, GoodSlide s) :
    (∀ s ∈ vSlidesAfter slides, GoodSlide s) ∧
      vSlidesAfter slides ≠ [] ∧ (vSlidesAfter slides).length ≤ 60 := by
  unfold vSlidesAfter
  refine ⟨?_, ?_, by simpa using List.length_take_le 60 _⟩
  · intro s hs
    have hs' := (List.take_prefix _ _).sublist.mem hs
    by_cases hfil : slides.filter slideNonEmpty = []
    · rw [if_pos hfil] at hs'
      rcases List.mem_singleton.mp hs' with rfl
      exact overviewSlide_good
    · rw [if_neg hfil] at hs'
      exact h s (List.mem_of_mem_filter hs')
  · by_cases hfil : slides.filter slideNonEmpty = []
    · rw [if_pos hfil]
      exact take_ne_nil_of_ne_nil (by simp) (by omega)
    · rw [if_neg hfil]
      exact take_ne_nil_of_ne_nil hfil (by omega)

theorem vSlidesAfter_fixed {slides : List OutlineSlide}
    (h : ∀ s ∈ slides, GoodSlide s) (hne : slides ≠ [])
    (hlen : slides.length ≤ 60) : vSlidesAfter slides = slides := by
  unfold vSlidesAfter
  have hfil : slides.filter slideNonEmpty = slides :=
    List.filter_eq_self.mpr fun s hs => goodSlide_nonEmpty (h s hs)
  rw [hfil, if_neg hne, List.take_of_length_le hlen]

theorem mEstimatedCount_none (slides : List OutlineSlide) :
    mEstimatedCount slides Option.none = (slides.length : Int) := rfl

theorem mEstimatedCount_some (slides : List OutlineSlide) (d : Int) :
    mEstimatedCount slides (Option.some d) = max 1 (min 60 d) := rfl

theorem mEstimatedCount_bounds (slides : List OutlineSlide)
    (hne : slides ≠ []) (hlen : slides.length ≤ 60) (est : Option Int) :
    1 ≤ mEstimatedCount slides est ∧ mEstimatedCount slides est ≤ 60 := by
  cases est with
  | none =>
    rw [mEstimatedCount_none]
    have h1 : 0 < slides.length := List.length_pos.mpr hne
    constructor
    · exact_mod_cast h1
    · exact_mod_cast hlen
  | some d =>
    rw [mEstimatedCount_some]
    omega

/-- The invariant of every validated `Outline`. -/
def GoodOutline (o : Outline) : Prop :=
  GoodTitle o.title ∧ (∀ s ∈ o.slides, GoodSlide s) ∧ o.slides ≠ [] ∧
    o.slides.length ≤ 60 ∧
    ∃ e : Int, o.estimatedSlideCount = Option.some e ∧ 1 ≤ e ∧ e ≤ 60

theorem mkOutline_good {title : Str} {slides : List OutlineSlide}
    {est : Option Int} (h : ∀ s ∈ slides, GoodSlide s) :
    GoodOutline (mkOutline title slides est) := by
  obtain ⟨hg, hne, hlen⟩ := vSlidesAfter_good h
  obtain ⟨he1, he2⟩ := mEstimatedCount_bounds (vSlidesAfter slides) hne hlen est
  exact ⟨vOutlineTitle_good title, hg, hne, hlen, _, rfl, he1, he2⟩

theorem mkOutlineRaw_good (title : Str) (slides : List RawSlide)
    (est : Option Int) : GoodOutline (mkOutlineRaw title slides est) := by
  unfold mkOutlineRaw
  refine mkOutline_good fun s hs => ?_
  rcases List.mem_map.mp hs with ⟨r, _, rfl⟩
  exact mkSlide_good r.title r.bullets r.layout r.notes

/-! ## Claim C6 — Sanitizer/Validator idempotence -/

/-- C6: the Sanitizer/Validator is idempotent — validating the
`model_dump()` of a validated Outline yields the identical Outline: no
field (title, bullets, layout, notes, or `estimated_slide_count`) is
further truncated, deduplicated, or coerced. -/
theorem c6_sanitizer_idempotent (title : Str) (slides : List RawSlide)
    (est : Option Int) :
    mkOutlineRaw (mkOutlineRaw title slides est).title
        (((mkOutlineRaw title slides est).slides).map dumpSlide)
        (mkOutlineRaw title slides est).estimatedSlideCount =
      mkOutlineRaw title slides est := by
  obtain ⟨ht, hg, hne, hlen, e, hest, he1, he2⟩ := mkOutlineRaw_good title slides est
  set o := mkOutlineRaw title slides est with ho
  unfold mkOutlineRaw
  have hmap : (o.slides.map dumpSlide).map
      (fun r => mkSlide r.title r.bullets r.layout r.notes) = o.slides := by
    rw [List.map_map]
    rw [show o.slides.map
          ((fun r : RawSlide => mkSlide r.title r.bullets r.layout r.notes) ∘ dumpSlide) =
        o.slides.map id from List.map_congr_left fun s hs => mkSlide_dump_fixed (hg s hs)]
    exact List.map_id _
  unfold mkOutline
  rw [hmap, vSlidesAfter_fixed hg hne hlen, vOutlineTitle_fixed ht, hest]
  have hest2 : mEstimatedCount o.slides (Option.some e) = e := by
    rw [mEstimatedCount_some]
    omega
  rw [hest2]
  have : Outline.mk o.title o.slides (Option.some e) = o := by
    rw [ho] at hest ⊢
    cases hmk : mkOutlineRaw title slides est with
    | mk t s c =>
      rw [hmk] at hest
      simp only at hest
      simp [hest]
  exact this

/-! ## `app/main.py` — Outline Count Normalizer -/

/-- `main._normalize_slides` for one slide: re-strip title and bullets and
rebuild the `OutlineSlide` (running all pydantic field validators). -/
def normalizeSlide (s : OutlineSlide) : OutlineSlide :=
  mkSlide (if pyStrip s.title = [] then "Slide".data else pyStrip s.title)
    (.list ((s.bullets.map pyStrip).filter (· ≠ [])))
    (dumpLayout s.layout) s.notes

def normalizeSlides (l : List OutlineSlide) : List OutlineSlide :=
  l.map normalizeSlide

/-- The inner `while extra and len(slides) < min_slides and
len(slides) < max_slides` loop of `main._ensure_min_slides`: the chunks
`extra[:3]` that get inserted, with the current slide count threaded. -/
def innerChunks : List Str → Nat → Nat → Nat → List (List Str)
  | [], _, _, _ => []
  | [e], count, minS, maxS =>
    if count < minS ∧ count < maxS then [[e]] else []
  | [e, f], count, minS, maxS =>
    if count < minS ∧ count < maxS then [[e, f]] else []
  | e :: f :: g :: es, count, minS, maxS =>
    if count < minS ∧ count < maxS then
      [e, f, g] :: innerChunks es (count + 1) minS maxS
    else []

/-- One fuel-indexed unrolling of the outer splitting loop of
`main._ensure_min_slides`; the loop index/length gap `slides.length - i`
shrinks by exactly one per iteration, so running with that much fuel is
the loop itself. -/
def ensureLoopF : Nat → List OutlineSlide → Nat → Nat → Nat → List OutlineSlide
  | 0, slides, _, _, _ => slides
  | fuel + 1, slides, i, minS, maxS =>
    if h : slides.length < minS ∧ i < slides.length ∧ slides.length < maxS then
      let s := slides.get ⟨i, h.2.1⟩
      if s.bullets.length > 3 then
        ensureLoopF fuel
          (slides.take i ++ { s with bullets := s.bullets.take 3 } ::
            ((innerChunks (s.bullets.drop 3) slides.length minS maxS).map fun c =>
              mkSlide (s.title ++ " (cont.)".data) (.list c)
                (dumpLayout s.layout) Option.none) ++ slides.drop (i + 1))
          (i + (innerChunks (s.bullets.drop 3) slides.length minS maxS).length + 1)
          minS maxS
      else ensureLoopF fuel slides (i + 1) minS maxS
    else slides

/-- The outer splitting loop of `main._ensure_min_slides`. -/
def ensureLoop (slides : List OutlineSlide) (i minS maxS : Nat) :
    List OutlineSlide :=
  ensureLoopF (slides.length - i) slides i minS maxS

/-- Fuel-indexed padding loop of `main._ensure_min_slides`; the gap
`minS - slides.length` shrinks by one per appended pad slide. -/
def padLoopF : Nat → List OutlineSlide → Nat → Nat → List OutlineSlide
  | 0, slides, _, _ => slides
  | fuel + 1, slides, minS, maxS =>
    if slides.length < minS ∧ slides.length < maxS then
      padLoopF fuel
        (slides ++ [mkSlide ("Slide ".data ++ Nat.toDigits 10 (slides.length + 1))
          (.list []) "auto".data Option.none]) minS maxS
    else slides

/-- The padding loop of `main._ensure_min_slides`. -/
def padLoop (slides : List OutlineSlide) (minS maxS : Nat) :
    List OutlineSlide :=
  padLoopF (minS - slides.length) slides minS maxS

/-- `main._ensure_min_slides`. -/
def ensureMinSlides (o : Outline) (minS maxS : Nat) : Outline :=
  mkOutline o.title
    ((padLoop (ensureLoop (normalizeSlides o.slides) 0 minS maxS) minS maxS).take maxS)
    (Option.some
      (((padLoop (ensureLoop (normalizeSlides o.slides) 0 minS maxS) minS maxS).take
          maxS).length : Int))

/-- The `(cont.)`-merging pass of `main._enforce_target_slides`. -/
def mergeLoop : List OutlineSlide → List OutlineSlide
  | [] => []
  | [s] => [s]
  | a :: b :: rest =>
    if a.title.isPrefixOf b.title then
      { a with bullets := (a.bullets ++ b.bullets).take 8 } :: mergeLoop rest
    else a :: mergeLoop (b :: rest)

/-- `target = max(1, min(max_slides, int(target)))` in
`main._enforce_target_slides`. -/
def clampTarget (maxS : Nat) (target : Int) : Nat :=
  (max 1 (min (maxS : Int) target)).toNat

/-- `main._enforce_target_slides` (`max_slides` is `MAX_SLIDES = 40`). -/
def enforceTarget (o : Outline) (target : Int) (maxS : Nat) : Outline :=
  if (normalizeSlides o.slides).length < clampTarget maxS target then
    mkOutline o.title
      ((ensureMinSlides
          (mkOutline o.title (normalizeSlides o.slides)
            (Option.some ((normalizeSlides o.slides).length : Int)))
          (clampTarget maxS target) maxS).slides.take (clampTarget maxS target))
      (Option.some (clampTarget maxS target : Int))
  else if (normalizeSlides o.slides).length > clampTarget maxS target then
    mkOutline o.title
      ((mergeLoop (normalizeSlides o.slides)).take (clampTarget maxS target))
      (Option.some
        (((mergeLoop (normalizeSlides o.slides)).take (clampTarget maxS target)).length : Int))
  else
    mkOutline o.title ((normalizeSlides o.slides).take (clampTarget maxS target))
      (Option.some
        (((normalizeSlides o.slides).take (clampTarget maxS target)).length : Int))

/-! ## Goodness and length facts for the normalizer -/

theorem clampTarget_pos (maxS : Nat) (target : Int) : 1 ≤ clampTarget maxS target := by
  unfold clampTarget
  omega

theorem clampTarget_le {maxS : Nat} (h : 1 ≤ maxS) (target : Int) :
    clampTarget maxS target ≤ maxS := by
  unfold clampTarget
  omega

theorem normalizeSlide_good (s : OutlineSlide) : GoodSlide (normalizeSlide s) :=
  mkSlide_good _ _ _ _

theorem normalizeSlides_good {l : List OutlineSlide} :
    ∀ s ∈ normalizeSlides l, GoodSlide s := by
  intro s hs
  rcases List.mem_map.mp hs with ⟨x, _, rfl⟩
  exact normalizeSlide_good x

theorem normalizeSlide_fixed {s : OutlineSlide} (h : GoodSlide s) :
    normalizeSlide s = s := by
  unfold normalizeSlide
  have hstrip : pyStrip s.title = s.title := pyStrip_eq_self h.1.1.2.2.2
  rw [hstrip, if_neg h.1.2.2]
  have hmapb : s.bullets.map pyStrip = s.bullets := by
    rw [show s.bullets.map pyStrip = s.bullets.map id from
      List.map_congr_left fun b hb => goodBullet_strip (h.2.1 b hb), List.map_id]
  rw [hmapb]
  have hfil : s.bullets.filter (· ≠ []) = s.bullets :=
    List.filter_eq_self.mpr fun b hb => by simp [(h.2.1 b hb).2.2]
  rw [hfil]
  exact mkSlide_dump_fixed h

theorem normalizeSlides_fixed {l : List OutlineSlide}
    (h : ∀ s ∈ l, GoodSlide s) : normalizeSlides l = l := by
  unfold normalizeSlides
  rw [show l.map normalizeSlide = l.map id from
    List.map_congr_left fun s hs => normalizeSlide_fixed (h s hs), List.map_id]

theorem goodSlide_bullets_take {s : OutlineSlide} (h : GoodSlide s) (n : Nat) :
    GoodSlide { s with bullets := s.bullets.take n } := by
  obtain ⟨h1, h2, h3, h4, h5⟩ := h
  refine ⟨h1, ?_, ?_, ?_, h5⟩
  · intro b hb
    exact h2 b ((List.take_prefix _ _).sublist.mem hb)
  · exact (List.take_prefix _ _).sublist.nodup h3
  · calc (s.bullets.take n).length ≤ s.bullets.length := by
          simpa using List.length_take_le n _
      _ ≤ 7 := h4

theorem ensureLoopF_good :
    ∀ (fuel : Nat) {slides : List OutlineSlide} (i minS maxS : Nat),
      (∀ s ∈ slides, GoodSlide s) →
      ∀ s ∈ ensureLoopF fuel slides i minS maxS, GoodSlide s := by
  intro fuel
  induction fuel with
  | zero => intro slides _ _ _ h; exact h
  | succ fuel ih =>
    intro slides i minS maxS h
    rw [ensureLoopF]
    by_cases hcond : slides.length < minS ∧ i < slides.length ∧ slides.length < maxS
    · rw [dif_pos hcond]
      by_cases hb : (slides.get ⟨i, hcond.2.1⟩).bullets.length > 3
      · rw [if_pos hb]
        refine ih _ _ _ ?_
        intro s hs
        rcases List.mem_append.mp hs with hs | hs
        · rcases List.mem_append.mp hs with hs | hs
          · exact h s ((List.take_prefix _ _).sublist.mem hs)
          · rcases List.mem_cons.mp hs with rfl | hs
            · exact goodSlide_bullets_take (h _ (List.get_mem ..)) 3
            · rcases List.mem_map.mp hs with ⟨c, _, rfl⟩
              exact mkSlide_good _ _ _ _
        · exact h s (List.mem_of_mem_drop hs)
      · rw [if_neg hb]
        exact ih _ _ _ h
    · rw [dif_neg hcond]
      exact h

theorem padLoopF_good :
    ∀ (fuel : Nat) {slides : List OutlineSlide} (minS maxS : Nat),
      (∀ s ∈ slides, GoodSlide s) →
      ∀ s ∈ padLoopF fuel slides minS maxS, GoodSlide s := by
  intro fuel
  induction fuel with
  | zero => intro slides _ _ h; exact h
  | succ fuel ih =>
    intro slides minS maxS h
    rw [padLoopF]
    by_cases hcond : slides.length < minS ∧ slides.length < maxS
    · rw [if_pos hcond]
      refine ih _ _ ?_
      intro s hs
      rcases List.mem_append.mp hs with hs | hs
      · exact h s hs
      · rcases List.mem_singleton.mp hs with rfl
        exact mkSlide_good _ _ _ _
    · rw [if_neg hcond]
      exact h

theorem padLoopF_length :
    ∀ (fuel : Nat) (slides : List OutlineSlide) (minS maxS : Nat),
      fuel = minS - slides.length →
      minS ≤ (padLoopF fuel slides minS maxS).length ∨
        maxS ≤ (padLoopF fuel slides minS maxS).length := by
  intro fuel
  induction fuel with
  | zero =>
    intro slides minS maxS hf
    rw [padLoopF]
    exact Or.inl (by omega)
  | succ fuel ih =>
    intro slides minS maxS hf
    rw [padLoopF]
    by_cases hcond : slides.length < minS ∧ slides.length < maxS
    · rw [if_pos hcond]
      refine ih _ minS maxS ?_
      simp only [List.length_append, List.length_cons, List.length_nil]
      omega
    · rw [if_neg hcond]
      omega

theorem padLoop_length (slides : List OutlineSlide) (minS maxS : Nat) :
    minS ≤ (padLoop slides minS maxS).length ∨
      maxS ≤ (padLoop slides minS maxS).length :=
  padLoopF_length _ slides minS maxS rfl

theorem ensureLoop_good {slides : List OutlineSlide} (i minS maxS : Nat)
    (h : ∀ s ∈ slides, GoodSlide s) :
    ∀ s ∈ ensureLoop slides i minS maxS, GoodSlide s :=
  ensureLoopF_good _ _ _ _ h

theorem padLoop_good {slides : List OutlineSlide} (minS maxS : Nat)
    (h : ∀ s ∈ slides, GoodSlide s) :
    ∀ s ∈ padLoop slides minS maxS, GoodSlide s :=
  padLoopF_good _ _ _ h

theorem enforceTarget_fixed {o' : Outline} {target : Int} {u : Str}
    (hg : ∀ s ∈ o'.slides, GoodSlide s)
    (hlen : o'.slides.length = clampTarget 40 target)
    (ht : o'.title = vOutlineTitle u)
    (hest : o'.estimatedSlideCount = Option.some (clampTarget 40 target : Int)) :
    enforceTarget o' target 40 = o' := by
  have h1 : 1 ≤ clampTarget 40 target := clampTarget_pos 40 target
  have h40 : clampTarget 40 target ≤ 40 := clampTarget_le (by omega) target
  have hne : o'.slides ≠ [] := by
    intro hnil
    rw [hnil] at hlen
    simp at hlen
    omega
  have hfix : normalizeSlides o'.slides = o'.slides := normalizeSlides_fixed hg
  unfold enforceTarget
  rw [hfix, hlen, if_neg (lt_irrefl _), if_neg (lt_irrefl _),
    List.take_of_length_le (le_of_eq hlen)]
  unfold mkOutline
  rw [vSlidesAfter_fixed hg hne (by omega), ht,
    vOutlineTitle_fixed (vOutlineTitle_good u)]
  rw [mEstimatedCount_some]
  have heq : (max 1 (min 60 (o'.slides.length : Int))) =
      (clampTarget 40 target : Int) := by
    rw [hlen]
    omega
  rw [heq]
  cases o' with
  | mk t s c =>
    simp only at ht hest ⊢
    rw [← ht, hest]

set_option maxHeartbeats 1600000 in
theorem enforceTarget_out (o : Outline) (target : Int)
    (h : (normalizeSlides o.slides).length ≤ clampTarget 40 target) :
    (∀ s ∈ (enforceTarget o target 40).slides, GoodSlide s) ∧
      (enforceTarget o target 40).slides.length = clampTarget 40 target ∧
      (enforceTarget o target 40).title = vOutlineTitle o.title ∧
      (enforceTarget o target 40).estimatedSlideCount =
        Option.some (clampTarget 40 target : Int) := by
  have h1 : 1 ≤ clampTarget 40 target := clampTarget_pos 40 target
  have h40 : clampTarget 40 target ≤ 40 := clampTarget_le (by omega) target
  rcases lt_or_eq_of_le h with hlt | heq
  · -- grow path
    unfold enforceTarget
    rw [if_pos hlt]
    have homgood : ∀ s ∈ (mkOutline o.title (normalizeSlides o.slides)
        (Option.some ((normalizeSlides o.slides).length : Int))).slides, GoodSlide s :=
      (vSlidesAfter_good normalizeSlides_good).1
    set om := mkOutline o.title (normalizeSlides o.slides)
      (Option.some ((normalizeSlides o.slides).length : Int)) with hom
    have hensgood : ∀ s ∈ ensureLoop (normalizeSlides om.slides) 0
        (clampTarget 40 target) 40, GoodSlide s :=
      ensureLoop_good _ _ _ normalizeSlides_good
    have hpadgood : ∀ s ∈ padLoop (ensureLoop (normalizeSlides om.slides) 0
        (clampTarget 40 target) 40) (clampTarget 40 target) 40, GoodSlide s :=
      padLoop_good _ _ hensgood
    have hpadlenor := padLoop_length (ensureLoop (normalizeSlides om.slides) 0
      (clampTarget 40 target) 40) (clampTarget 40 target) 40
    set padded := padLoop (ensureLoop (normalizeSlides om.slides) 0
      (clampTarget 40 target) 40) (clampTarget 40 target) 40 with hpad
    have hpadlen : clampTarget 40 target ≤ padded.length := by
      rcases hpadlenor with hc | hc
      · exact hc
      · omega
    have htakegood : ∀ s ∈ padded.take 40, GoodSlide s := fun s hs =>
      hpadgood s ((List.take_prefix _ _).sublist.mem hs)
    have htakelen : clampTarget 40 target ≤ (padded.take 40).length := by
      rw [List.length_take]
      omega
    have htakene : padded.take 40 ≠ [] := by
      intro hnil
      rw [hnil] at htakelen
      simp at htakelen
      omega
    have hgrownslides : (ensureMinSlides om (clampTarget 40 target) 40).slides =
        padded.take 40 := by
      unfold ensureMinSlides mkOutline
      simp only
      rw [← hpad]
      exact vSlidesAfter_fixed htakegood htakene
        (by rw [List.length_take]; omega)
    rw [hgrownslides]
    have hfinlen : ((padded.take 40).take (clampTarget 40 target)).length =
        clampTarget 40 target := by
      rw [List.length_take, List.length_take]
      omega
    have hfingood : ∀ s ∈ (padded.take 40).take (clampTarget 40 target),
        GoodSlide s := fun s hs => htakegood s ((List.take_prefix _ _).sublist.mem hs)
    have hfinne : (padded.take 40).take (clampTarget 40 target) ≠ [] := by
      intro hnil
      rw [hnil] at hfinlen
      simp at hfinlen
      omega
    unfold mkOutline
    rw [vSlidesAfter_fixed hfingood hfinne (by omega)]
    refine ⟨hfingood, hfinlen, rfl, ?_⟩
    simp only [mEstimatedCount_some]
    congr 1
    omega
  · -- exact-count path
    have hnlt : ¬ ((normalizeSlides o.slides).length < clampTarget 40 target) := by
      omega
    have hngt : ¬ ((normalizeSlides o.slides).length > clampTarget 40 target) := by
      omega
    unfold enforceTarget
    rw [if_neg hnlt, if_neg hngt, List.take_of_length_le (le_of_eq heq)]
    have hgood := @normalizeSlides_good o.slides
    have hne : normalizeSlides o.slides ≠ [] := by
      intro hnil
      rw [hnil] at heq
      simp at heq
      omega
    unfold mkOutline
    rw [vSlidesAfter_fixed hgood hne (by omega)]
    refine ⟨hgood, heq, rfl, ?_⟩
    simp only [mEstimatedCount_some]
    congr 1
    rw [heq]
    omega

/-! ## Claim C2 — normalizer idempotence -/

/-- C2 counterexample: a valid 4-slide outline (two `(cont.)` pairs) with
target 3: the first run's merge pass undershoots the target (2 slides),
so a second run with the same target takes the grow path and pads a third
slide — `normalize(normalize(O, 3), 3) ≠ normalize(O, 3)`. -/
theorem c2_normalizer_counterexample :
    enforceTarget (enforceTarget (mkOutlineRaw "Deck".data
      [⟨"Alpha".data, RawBullets.list ["a1".data], "auto".data, Option.none⟩,
       ⟨"Alpha (cont.)".data, RawBullets.list ["a2".data], "auto".data, Option.none⟩,
       ⟨"Beta".data, RawBullets.list ["b1".data], "auto".data, Option.none⟩,
       ⟨"Beta (cont.)".data, RawBullets.list ["b2".data], "auto".data, Option.none⟩]
      Option.none) 3 40) 3 40 ≠
    enforceTarget (mkOutlineRaw "Deck".data
      [⟨"Alpha".data, RawBullets.list ["a1".data], "auto".data, Option.none⟩,
       ⟨"Alpha (cont.)".data, RawBullets.list ["a2".data], "auto".data, Option.none⟩,
       ⟨"Beta".data, RawBullets.list ["b1".data], "auto".data, Option.none⟩,
       ⟨"Beta (cont.)".data, RawBullets.list ["b2".data], "auto".data, Option.none⟩]
      Option.none) 3 40 := by decide

/-- C2 (amended): the target-enforcing normalization is idempotent
whenever the first run does not take the lossy merge path — that is,
whenever the normalized slide count is at most the clamped target (the
grow and exact-count paths).  When the count exceeds the target, the
merge pass can undershoot the target and can build slides with up to 8,
possibly duplicated, bullets, both of which a second run changes. -/
theorem c2_normalizer_idempotent_amended (o : Outline) (target : Int)
    (h : (normalizeSlides o.slides).length ≤ clampTarget 40 target) :
    enforceTarget (enforceTarget o target 40) target 40 =
      enforceTarget o target 40 := by
  obtain ⟨hg, hlen, htitle, hest⟩ := enforceTarget_out o target h
  exact enforceTarget_fixed hg hlen htitle hest

/-- Concrete instance of the amended C2 theorem. -/
theorem c2_normalizer_idempotent_witness :
    enforceTarget (enforceTarget (mkOutlineRaw "Deck".data
      [⟨"Intro".data, RawBullets.list ["a".data], "auto".data, Option.none⟩]
      Option.none) 3 40) 3 40 =
    enforceTarget (mkOutlineRaw "Deck".data
      [⟨"Intro".data, RawBullets.list ["a".data], "auto".data, Option.none⟩]
      Option.none) 3 40 :=
  c2_normalizer_idempotent_amended _ 3 (by decide)

/-! ## `app/template_utils.py` — PPTX safety check -/

/-- One member of a zip archive, as reported by `zipfile`
(`namelist()` / `infolist()`): name, directory flag, uncompressed and
compressed sizes. -/
structure ZipEntry where
  name : Str
  isDir : Bool
  fileSize : Nat
  compressSize : Nat
deriving DecidableEq, Repr

/-- The result of `zipfile.ZipFile(BytesIO(template_bytes))`: either a
`BadZipFile`/other parse error, or the archive's entries.  `zipfile` is
an external library, so its parse is modelled as data. -/
inductive ZipParse where
  | badZip
  | archive (entries : List ZipEntry)
deriving DecidableEq, Repr

/-- The per-entry loop of `is_safe_pptx`: skip directories, reject a
member above the per-member limit, accumulate the total uncompressed
size, and reject a compression ratio above `max_ratio`.  `none` models
the early `return False`.  The float ratio division is modelled over ℚ. -/
def checkEntries (perLimit : Nat) (maxRatio : ℚ) :
    List ZipEntry → Nat → Option Nat
  | [], tot => Option.some tot
  | e :: es, tot =>
    if e.isDir then checkEntries perLimit maxRatio es tot
    else if perLimit < e.fileSize then Option.none
    else if 0 < e.compressSize ∧ maxRatio < (e.fileSize : ℚ) / (e.compressSize : ℚ) then
      Option.none
    else checkEntries perLimit maxRatio es (tot + e.fileSize)

/-- `template_utils.is_safe_pptx`.  Parameters are
`max_entries`, `max_member_mb`, `max_total_mb`, `max_ratio`
(defaults 2000, 50, 200, 200.0). -/
def isSafePptx (z : ZipParse) (maxEntries maxMemberMB maxTotalMB : Nat)
    (maxRatio : ℚ) : Bool :=
  match z with
  | .badZip => false
  | .archive entries =>
    if "[Content_Types].xml".data ∉ entries.map ZipEntry.name then false
    else if ¬ (entries.map ZipEntry.name).any
        (fun n => "ppt/presentation.xml".data.isSuffixOf n) then false
    else if maxEntries < (entries.map ZipEntry.name).length then false
    else
      match checkEntries (maxMemberMB * 1024 * 1024) maxRatio entries 0 with
      | Option.none => false
      | Option.some tot => if maxTotalMB * 1024 * 1024 < tot then false else true

theorem checkEntries_none_of_bad {perLimit : Nat} {maxRatio : ℚ} :
    ∀ {entries : List ZipEntry} (tot : Nat),
      (∃ e ∈ entries, e.isDir = false ∧
        (perLimit < e.fileSize ∨
          (0 < e.compressSize ∧ maxRatio < (e.fileSize : ℚ) / (e.compressSize : ℚ)))) →
      checkEntries perLimit maxRatio entries tot = Option.none := by
  intro entries
  induction entries with
  | nil => intro tot h; rcases h with ⟨e, he, _⟩; cases he
  | cons a es ih =>
    intro tot h
    rcases h with ⟨e, he, hdir, hbad⟩
    rcases List.mem_cons.mp he with rfl | he'
    · rw [checkEntries, if_neg (by simp [hdir])]
      rcases hbad with hb | hb
      · rw [if_pos hb]
      · by_cases hsize : perLimit < e.fileSize
        · rw [if_pos hsize]
        · rw [if_neg hsize, if_pos hb]
    · rw [checkEntries]
      by_cases hdira : a.isDir
      · rw [if_pos hdira]
        exact ih tot ⟨e, he', hdir, hbad⟩
      · rw [if_neg hdira]
        by_cases hsize : perLimit < a.fileSize
        · rw [if_pos hsize]
        · rw [if_neg hsize]
          by_cases hratio : 0 < a.compressSize ∧
              maxRatio < (a.fileSize : ℚ) / (a.compressSize : ℚ)
          · rw [if_pos hratio]
          · rw [if_neg hratio]
            exact ih _ ⟨e, he', hdir, hbad⟩

theorem isSafePptx_archive (entries : List ZipEntry)
    (maxEntries maxMemberMB maxTotalMB : Nat) (maxRatio : ℚ) :
    isSafePptx (ZipParse.archive entries) maxEntries maxMemberMB maxTotalMB
        maxRatio =
      (if "[Content_Types].xml".data ∉ entries.map ZipEntry.name then false
       else if ¬ (entries.map ZipEntry.name).any
           (fun n => "ppt/presentation.xml".data.isSuffixOf n) then false
       else if maxEntries < (entries.map ZipEntry.name).length then false
       else
         match checkEntries (maxMemberMB * 1024 * 1024) maxRatio entries 0 with
         | Option.none => false
         | Option.some tot => if maxTotalMB * 1024 * 1024 < tot then false else true) :=
  rfl

theorem isSafePptx_false_of_checkEntries_none {entries : List ZipEntry}
    {maxEntries maxMemberMB maxTotalMB : Nat} {maxRatio : ℚ}
    (h : checkEntries (maxMemberMB * 1024 * 1024) maxRatio entries 0 = Option.none) :
    isSafePptx (ZipParse.archive entries) maxEntries maxMemberMB maxTotalMB
      maxRatio = false := by
  rw [isSafePptx_archive]
  by_cases h1 : "[Content_Types].xml".data ∉ entries.map ZipEntry.name
  · rw [if_pos h1]
  · rw [if_neg h1]
    by_cases h2 : ¬ (entries.map ZipEntry.name).any
        (fun n => "ppt/presentation.xml".data.isSuffixOf n)
    · rw [if_pos h2]
    · rw [if_neg h2]
      by_cases h3 : maxEntries < (entries.map ZipEntry.name).length
      · rw [if_pos h3]
      · rw [if_neg h3, h]

/-! ## Claim C7 — safety check rejections -/

/-- C7: the template safety check returns an unsafe verdict (`False`),
never raising, for: a byte blob that is not a valid zip archive; an
archive lacking the `[Content_Types].xml` entry; an archive containing a
file entry whose uncompressed-to-compressed ratio exceeds the 200:1
ceiling; and an archive containing a file entry whose uncompressed size
exceeds the 50 MB per-entry ceiling. -/
theorem c7_safety_check_rejects :
    (isSafePptx ZipParse.badZip 2000 50 200 200 = false) ∧
    (∀ entries : List ZipEntry,
      "[Content_Types].xml".data ∉ entries.map ZipEntry.name →
      isSafePptx (ZipParse.archive entries) 2000 50 200 200 = false) ∧
    (∀ entries : List ZipEntry, ∀ e ∈ entries, e.isDir = false →
      0 < e.compressSize → (200 : ℚ) < (e.fileSize : ℚ) / (e.compressSize : ℚ) →
      isSafePptx (ZipParse.archive entries) 2000 50 200 200 = false) ∧
    (∀ entries : List ZipEntry, ∀ e ∈ entries, e.isDir = false →
      50 * 1024 * 1024 < e.fileSize →
      isSafePptx (ZipParse.archive entries) 2000 50 200 200 = false) := by
  refine ⟨rfl, ?_, ?_, ?_⟩
  · intro entries h
    rw [isSafePptx_archive, if_pos h]
  · intro entries e he hdir hcz hratio
    exact isSafePptx_false_of_checkEntries_none
      (checkEntries_none_of_bad 0 ⟨e, he, hdir, Or.inr ⟨hcz, hratio⟩⟩)
  · intro entries e he hdir hsize
    exact isSafePptx_false_of_checkEntries_none
      (checkEntries_none_of_bad 0 ⟨e, he, hdir, Or.inl hsize⟩)

/-- Concrete instances of the four C7 rejections: a malformed blob, an
archive missing the content-types descriptor, a 10000:1-ratio entry
against the 200:1 ceiling, and a 51 MB entry against the 50 MB ceiling. -/
theorem c7_safety_check_rejects_witness :
    (isSafePptx ZipParse.badZip 2000 50 200 200 = false) ∧
    (isSafePptx (ZipParse.archive
        [⟨"ppt/presentation.xml".data, false, 10, 10⟩]) 2000 50 200 200 = false) ∧
    (isSafePptx (ZipParse.archive
        [⟨"[Content_Types].xml".data, false, 100, 100⟩,
         ⟨"ppt/presentation.xml".data, false, 2000000, 200⟩]) 2000 50 200 200 = false) ∧
    (isSafePptx (ZipParse.archive
        [⟨"[Content_Types].xml".data, false, 100, 100⟩,
         ⟨"ppt/presentation.xml".data, false, 53477376, 1000⟩]) 2000 50 200 200 = false) :=
  ⟨c7_safety_check_rejects.1,
   c7_safety_check_rejects.2.1 _ (by decide),
   c7_safety_check_rejects.2.2.1 _
     ⟨"ppt/presentation.xml".data, false, 2000000, 200⟩ (by simp) rfl
     (by norm_num) (by norm_num),
   c7_safety_check_rejects.2.2.2 _
     ⟨"ppt/presentation.xml".data, false, 53477376, 1000⟩ (by simp) rfl
     (by norm_num)⟩

/-! ## `app/template_utils.py` — layout resolution -/

/-- A slide layout with its capability counts, as computed by
`_layout_capabilities` over the (external) `python-pptx` objects:
the number of text-capable and picture-capable placeholders. -/
structure PLayout where
  name : Str
  textCapable : Nat
  picCapable : Nat
deriving DecidableEq, Repr

/-- `template_utils._name_match_score`. -/
def nameMatchScore (candidate target : Str) : Nat :=
  if pyLower (pyStrip candidate) = [] ∨ pyLower (pyStrip target) = [] then 0
  else if pyLower (pyStrip candidate) = pyLower (pyStrip target) then 3
  else if pyIn (pyLower (pyStrip target)) (pyLower (pyStrip candidate)) then 2
  else 0

/-- `template_utils._capability_ok`. -/
def capabilityOk (target : Str) (txt pic : Nat) : Bool :=
  if pyIn "two content".data (pyLower target) then decide (2 ≤ txt)
  else if pyIn "picture".data (pyLower target) then decide (1 ≤ pic)
  else if pyIn "content".data (pyLower target) || pyIn "caption".data (pyLower target)
    then decide (1 ≤ txt)
  else true

/-- First pass of `find_preferred_layout`: the first layout whose
lower-cased name equals one of the lower-cased preferred names and that
satisfies the capability check for the first such preferred name. -/
def findExact (layouts : List PLayout) (prefs : List Str) : Option PLayout :=
  layouts.find? fun l =>
    decide (pyLower l.name ∈ prefs.map pyLower) &&
    capabilityOk (prefs.getD ((prefs.map pyLower).indexOf (pyLower l.name)) [])
      l.textCapable l.picCapable

/-- The per-layout score fold of the second, scored pass: the running
max of name-match scores, reset to 0 whenever the current preferred name
fails the capability check while the score is positive. -/
def layoutScore (l : PLayout) (prefs : List Str) : Nat :=
  prefs.foldl (fun score pref =>
    if 0 < max score (nameMatchScore l.name pref) ∧
        ¬ capabilityOk pref l.textCapable l.picCapable then 0
    else max score (nameMatchScore l.name pref)) 0

/-- The best-scoring fold of the second pass. -/
def bestFold (layouts : List PLayout) (prefs : List Str) :
    Nat × Option PLayout :=
  layouts.foldl (fun best l =>
    if best.1 < layoutScore l prefs then (layoutScore l prefs, Option.some l)
    else best) (0, Option.none)

/-- `template_utils.find_preferred_layout`. -/
def findPreferredLayout (layouts : List PLayout) (prefs : List Str) :
    Option PLayout :=
  if prefs = [] then Option.none
  else
    match findExact layouts prefs with
    | Option.some l => Option.some l
    | Option.none =>
      if 0 < (bestFold layouts prefs).1 then (bestFold layouts prefs).2
      else Option.none

/-- The preferred-name chain the builder passes when a slide requests
the "Two Content" layout (`pptx_builder.build_presentation`). -/
def twoContentPrefs : List Str :=
  ["Two Content".data, "Title and Content".data, "Two Content".data,
   "Content with Caption".data, "Picture with Caption".data, "Blank".data]

/-- `Char.toLower` fixes every whitespace character (only `[A-Z]` move). -/
theorem toLower_of_isPySpace {c : Char} (h : isPySpace c) : Char.toLower c = c := by
  unfold Char.toLower
  rw [if_neg]
  simp only [isPySpace, Bool.or_eq_true, Bool.and_eq_true, decide_eq_true_eq] at h
  omega

theorem isPySpace_toLower (c : Char) : isPySpace (Char.toLower c) = isPySpace c := by
  by_cases h : isPySpace c
  · rw [toLower_of_isPySpace h]
  · simp only [h]
    have hlow : Char.toLower c =
        if c.toNat ≥ 65 ∧ c.toNat ≤ 90 then Char.ofNat (c.toNat + 32) else c := rfl
    rw [hlow]
    split
    · rename_i hrange
      have hv : (Char.ofNat (c.toNat + 32)).toNat = c.toNat + 32 := by
        have hval : (c.toNat + 32).isValidChar := by
          left
          omega
        unfold Char.ofNat
        rw [dif_pos hval]
        rfl
      rw [Bool.eq_false_iff]
      intro hsp
      simp only [isPySpace, hv, Bool.or_eq_true, Bool.and_eq_true,
        decide_eq_true_eq] at hsp
      omega
    · exact (Bool.not_eq_true _).mp h

theorem isPySpace_comp_toLower : (isPySpace ∘ Char.toLower) = isPySpace :=
  funext isPySpace_toLower

theorem pyLstrip_pyLower (s : Str) : pyLstrip (pyLower s) = pyLower (pyLstrip s) := by
  unfold pyLstrip pyLower
  rw [List.dropWhile_map, isPySpace_comp_toLower]

theorem pyRstrip_pyLower (s : Str) : pyRstrip (pyLower s) = pyLower (pyRstrip s) := by
  unfold pyRstrip pyLower
  rw [← List.map_reverse, List.dropWhile_map, isPySpace_comp_toLower,
    List.map_reverse]

/-- Stripping commutes with lower-casing. -/
theorem pyStrip_pyLower (s : Str) : pyStrip (pyLower s) = pyLower (pyStrip s) := by
  unfold pyStrip
  rw [pyLstrip_pyLower, pyRstrip_pyLower]

theorem bestFold_aux_spec (prefs : List Str) :
    ∀ (ls : List PLayout) (acc : Nat × Option PLayout),
      (∀ l, acc.2 = Option.some l → acc.1 = layoutScore l prefs) →
      ∀ l, (ls.foldl (fun best l =>
          if best.1 < layoutScore l prefs then (layoutScore l prefs, Option.some l)
          else best) acc).2 = Option.some l →
        (ls.foldl (fun best l =>
          if best.1 < layoutScore l prefs then (layoutScore l prefs, Option.some l)
          else best) acc).1 = layoutScore l prefs := by
  intro ls
  induction ls with
  | nil => intro acc hacc l h; exact hacc l h
  | cons a rest ih =>
    intro acc hacc l h
    rw [List.foldl_cons] at h ⊢
    refine ih _ ?_ l h
    by_cases hlt : acc.1 < layoutScore a prefs
    · rw [if_pos hlt]
      intro x hx
      rcases Option.some.inj hx with rfl
      rfl
    · rw [if_neg hlt]
      exact hacc

theorem bestFold_aux_mem (prefs : List Str) :
    ∀ (ls : List PLayout) (acc : Nat × Option PLayout) (ls0 : List PLayout),
      (∀ l, acc.2 = Option.some l → l ∈ ls0) →
      (∀ l, l ∈ ls → l ∈ ls0) →
      ∀ l, (ls.foldl (fun best l =>
          if best.1 < layoutScore l prefs then (layoutScore l prefs, Option.some l)
          else best) acc).2 = Option.some l → l ∈ ls0 := by
  intro ls
  induction ls with
  | nil => intro acc ls0 hacc _ l h; exact hacc l h
  | cons a rest ih =>
    intro acc ls0 hacc hmem l h
    rw [List.foldl_cons] at h
    refine ih _ ls0 ?_ (fun x hx => hmem x (List.mem_cons_of_mem _ hx)) l h
    by_cases hlt : acc.1 < layoutScore a prefs
    · rw [if_pos hlt]
      intro x hx
      rcases Option.some.inj hx with rfl
      exact hmem a (by simp)
    · rw [if_neg hlt]
      exact hacc

theorem bestFold_spec {layouts : List PLayout} {prefs : List Str} {l : PLayout}
    (h : (bestFold layouts prefs).2 = Option.some l) :
    (bestFold layouts prefs).1 = layoutScore l prefs ∧ l ∈ layouts := by
  constructor
  · exact bestFold_aux_spec prefs layouts (0, Option.none) (by simp) l h
  · exact bestFold_aux_mem prefs layouts (0, Option.none) layouts (by simp)
      (fun _ hx => hx) l h

theorem capabilityOk_twoContent_false {txt pic : Nat} (h : txt < 2) :
    capabilityOk "Two Content".data txt pic = false := by
  unfold capabilityOk
  rw [if_pos (by decide)]
  simp only [decide_eq_false_iff_not]
  omega

theorem layoutScore_twoContent {l : PLayout}
    (hname : pyLower (pyStrip l.name) = "two content".data)
    (hcap : l.textCapable < 2) : layoutScore l twoContentPrefs = 0 := by
  have h1 : nameMatchScore l.name "Two Content".data = 3 := by
    unfold nameMatchScore
    rw [hname]
    decide
  have h2 : nameMatchScore l.name "Title and Content".data = 0 := by
    unfold nameMatchScore
    rw [hname]
    decide
  have h3 : nameMatchScore l.name "Content with Caption".data = 0 := by
    unfold nameMatchScore
    rw [hname]
    decide
  have h4 : nameMatchScore l.name "Picture with Caption".data = 0 := by
    unfold nameMatchScore
    rw [hname]
    decide
  have h5 : nameMatchScore l.name "Blank".data = 0 := by
    unfold nameMatchScore
    rw [hname]
    decide
  have hc := @capabilityOk_twoContent_false l.textCapable l.picCapable hcap
  unfold layoutScore twoContentPrefs
  simp only [List.foldl_cons, List.foldl_nil, h1, h2, h3, h4, h5, hc]
  norm_num

theorem map_pyLower_twoContentPrefs :
    twoContentPrefs.map pyLower =
      ["two content".data, "title and content".data, "two content".data,
       "content with caption".data, "picture with caption".data, "blank".data] := by
  decide

theorem findExact_twoContent {layouts : List PLayout}
    (hcap : ∀ l ∈ layouts, l.textCapable < 2) {l : PLayout}
    (h : findExact layouts twoContentPrefs = Option.some l) :
    pyLower (pyStrip l.name) ≠ "two content".data := by
  have hmem : l ∈ layouts := List.mem_of_find?_eq_some h
  have hpred := List.find?_some h
  simp only [Bool.and_eq_true, decide_eq_true_eq] at hpred
  obtain ⟨hin, hcapok⟩ := hpred
  rw [map_pyLower_twoContentPrefs] at hin
  intro hstrip
  have hcontra : pyLower l.name = "two content".data → False := by
    intro hn
    rw [map_pyLower_twoContentPrefs, hn] at hcapok
    rw [show (["two content".data, "title and content".data, "two content".data,
        "content with caption".data, "picture with caption".data,
        "blank".data].indexOf "two content".data) = 0 from by decide] at hcapok
    rw [show twoContentPrefs.getD 0 [] = "Two Content".data from by decide] at hcapok
    rw [capabilityOk_twoContent_false (hcap l hmem)] at hcapok
    exact Bool.false_ne_true hcapok
  simp only [List.mem_cons, List.not_mem_nil, or_false] at hin
  rcases hin with hn | hn | hn | hn | hn | hn
  · exact hcontra hn
  · rw [← pyStrip_pyLower, hn] at hstrip
    exact absurd hstrip (by decide)
  · exact hcontra hn
  · rw [← pyStrip_pyLower, hn] at hstrip
    exact absurd hstrip (by decide)
  · rw [← pyStrip_pyLower, hn] at hstrip
    exact absurd hstrip (by decide)
  · rw [← pyStrip_pyLower, hn] at hstrip
    exact absurd hstrip (by decide)

/-! ## Claim C8 — "Two Content" requires two text-capable placeholders -/

/-- C8: against a presentation whose layouts each expose fewer than two
text-capable placeholders, resolving the request "Two Content" (with the
builder's fallback chain) never returns a layout named "Two Content":
both the exact-name pass and the scored fallback pass enforce the
capability predicate. -/
theorem c8_two_content_capability (layouts : List PLayout)
    (hcap : ∀ l ∈ layouts, l.textCapable < 2) :
    ∀ l : PLayout, findPreferredLayout layouts twoContentPrefs = Option.some l →
      pyLower (pyStrip l.name) ≠ "two content".data := by
  intro l h
  unfold findPreferredLayout at h
  rw [if_neg (by decide : ¬ twoContentPrefs = [])] at h
  cases hfe : findExact layouts twoContentPrefs with
  | some l' =>
    rw [hfe] at h
    rcases Option.some.inj h with rfl
    exact findExact_twoContent hcap hfe
  | none =>
    rw [hfe] at h
    by_cases hpos : 0 < (bestFold layouts twoContentPrefs).1
    · rw [if_pos hpos] at h
      obtain ⟨hsc, hmem⟩ := bestFold_spec h
      intro hstrip
      rw [hsc, layoutScore_twoContent hstrip (hcap l hmem)] at hpos
      exact lt_irrefl 0 hpos
    · rw [if_neg hpos] at h
      cases h

/-- Concrete instance: a template whose "Two Content" layout has a single
text region; resolution returns the capability-satisfying
"Title and Content" layout instead. -/
theorem c8_two_content_capability_witness :
    pyLower (pyStrip (⟨"Title and Content".data, 1, 1⟩ : PLayout).name) ≠
      "two content".data :=
  c8_two_content_capability
    [⟨"Two Content".data, 1, 0⟩, ⟨"Title and Content".data, 1, 1⟩]
    (by decide) ⟨"Title and Content".data, 1, 1⟩ (by decide)

/-! ## `app/parser.py` — keyword bucketing -/

/-- The `hints` table of `parser._keyword_bucket` (keys are the
lower-cased section names). -/
def bucketHints (sec : Str) : List Str :=
  if sec = "problem".data then ["problem".data, "pain".data, "gap".data]
  else if sec = "solution".data then
    ["solution".data, "approach".data, "proposal".data]
  else if sec = "market".data then
    ["market".data, "tam".data, "sam".data, "som".data]
  else if sec = "product".data then
    ["product".data, "feature".data, "prototype".data, "architecture".data]
  else if sec = "moat".data then
    ["moat".data, "defensib".data, "advantage".data, "ip".data, "patent".data]
  else if sec = "go-to-market".data then
    ["gtm".data, "marketing".data, "sales".data, "channel".data]
  else if sec = "traction".data then
    ["traction".data, "revenue".data, "users".data, "growth".data]
  else if sec = "business model".data then
    ["pricing".data, "business model".data, "subscription".data, "margin".data]
  else if sec = "competition".data then
    ["competitor".data, "competition".data, "alternative".data]
  else if sec = "team".data then ["team".data, "hiring".data, "founder".data]
  else if sec = "financials".data then
    ["financial".data, "projection".data, "cost".data, "profit".data,
     "loss".data, "burn".data]
  else if sec = "ask".data then
    ["ask".data, "raise".data, "fund".data, "investment".data]
  else if sec = "roadmap".data then
    ["roadmap".data, "timeline".data, "milestone".data]
  else if sec = "purpose".data then ["purpose".data, "objective".data]
  else if sec = "scope".data then ["scope".data, "coverage".data]
  else if sec = "prerequisites".data then
    ["prerequisite".data, "requirement".data, "dependency".data]
  else if sec = "procedure".data then
    ["step".data, "procedure".data, "instruction".data]
  else if sec = "validation/checks".data then
    ["validate".data, "check".data, "verify".data]
  else if sec = "rollback/recovery".data then
    ["rollback".data, "recovery".data, "restore".data]
  else if sec = "contact/on-call".data then
    ["contact".data, "on-call".data, "escalation".data]
  else if sec = "value proposition".data then
    ["value".data, "benefit".data, "advantage".data, "roi".data]
  else if sec = "roi/impact".data then
    ["roi".data, "impact".data, "benefit".data]
  else if sec = "case studies".data then
    ["case".data, "study".data, "example".data]
  else if sec = "call to action".data then
    ["cta".data, "contact".data, "next step".data, "trial".data]
  else if sec = "background".data then
    ["background".data, "intro".data, "motivation".data]
  else if sec = "methods".data then
    ["method".data, "algorithm".data, "procedure".data]
  else if sec = "results".data then
    ["result".data, "finding".data, "outcome".data]
  else if sec = "limitations".data then
    ["limit".data, "constraint".data, "threat".data]
  else if sec = "future work".data then
    ["future".data, "next".data, "expand".data]
  else if sec = "references/acknowledgements".data then
    ["reference".data, "cite".data, "acknowledgement".data]
  else if sec = "objectives".data then
    ["objective".data, "goal".data, "outcome".data]
  else if sec = "key concepts".data then
    ["concept".data, "definition".data, "theory".data]
  else if sec = "examples".data then ["example".data, "illustration".data]
  else if sec = "practice questions".data then
    ["question".data, "quiz".data, "mcq".data]
  else if sec = "summary".data then
    ["summary".data, "conclusion".data, "recap".data]
  else []

/-- The `for i, sec in enumerate(sections)` scan of `_keyword_bucket`. -/
def keywordBucketGo (s : Str) (i : Nat) : List Str → Option Nat
  | [] => Option.none
  | sec :: rest =>
    if (bucketHints (pyLower sec)).any (fun k => pyIn k s) then Option.some i
    else keywordBucketGo s (i + 1) rest

/-- `parser._keyword_bucket`; `hash` is Python's (salted, run-dependent)
string hash, modelled as an oracle. -/
def keywordBucket (hash : Str → Int) (sentence : Str) (sections : List Str) :
    Nat :=
  match keywordBucketGo (pyLower sentence) 0 sections with
  | Option.some i => i
  | Option.none =>
    ((hash (pyLower sentence)) % (max 1 (sections.length : Int))).toNat

/-! ## Claim C9 — bucket index always in bounds -/

theorem keywordBucketGo_lt {s : Str} :
    ∀ {secs : List Str} {i j : Nat},
      keywordBucketGo s i secs = Option.some j → j < i + secs.length := by
  intro secs
  induction secs with
  | nil => intro i j h; cases h
  | cons a rest ih =>
    intro i j h
    rw [keywordBucketGo] at h
    by_cases hhit : (bucketHints (pyLower a)).any (fun k => pyIn k s)
    · rw [if_pos hhit] at h
      rcases Option.some.inj h with rfl
      simp
    · rw [if_neg hhit] at h
      have := ih h
      simp only [List.length_cons]
      omega

/-- C9: for every sentence, every hash oracle, and every non-empty list
of section names, `_keyword_bucket` returns an index strictly below the
number of sections, so the archetype bucketing loop's list indexing
(`bucketed[_keyword_bucket(s, sections)]`) is always in bounds — both on
the keyword-hit path and on the hash-modulo fallback. -/
theorem c9_keyword_bucket_in_bounds (hash : Str → Int) (sentence : Str)
    (sections : List Str) (hne : sections ≠ []) :
    keywordBucket hash sentence sections < sections.length := by
  unfold keywordBucket
  cases hgo : keywordBucketGo (pyLower sentence) 0 sections with
  | some i =>
    have := keywordBucketGo_lt hgo
    show i < sections.length
    omega
  | none =>
    have hlen : 0 < sections.length := List.length_pos.mpr hne
    have hmax : max 1 ((sections.length : Nat) : Int) = (sections.length : Int) := by
      omega
    show ((hash (pyLower sentence)) %
      (max 1 ((sections.length : Nat) : Int))).toNat < sections.length
    rw [hmax]
    have h1 := Int.emod_nonneg (hash (pyLower sentence))
      (by omega : ((sections.length : Nat) : Int) ≠ 0)
    have h2 := Int.emod_lt_of_pos (hash (pyLower sentence))
      (by omega : (0 : Int) < ((sections.length : Nat) : Int))
    omega

/-- Concrete instance of C9: a sentence that falls through to the
hash-modulo fallback with a negative hash value still lands in bounds. -/
theorem c9_keyword_bucket_in_bounds_witness :
    keywordBucket (fun _ => (-7 : Int)) "hello there".data
      ["Alpha".data, "Beta".data] < 2 :=
  c9_keyword_bucket_in_bounds (fun _ => (-7 : Int)) "hello there".data
    ["Alpha".data, "Beta".data] (by decide)

/-! ## `app/parser.py` — char-budget slide splitting -/

/-- A `{title, bullets}` slide part as built by
`parser._split_by_char_budget`. -/
structure Part where
  title : Str
  bullets : List Str
deriving DecidableEq, Repr

/-- The accumulator loop of `_split_by_char_budget`
(`MAX_CHARS_PER_SLIDE = 800`). -/
def splitGo (title : Str) : List Str → Nat → List Str → List Part
  | buf, _, [] => if buf ≠ [] then [⟨title, buf⟩] else []
  | buf, running, b :: rest =>
    if pyStrip b = [] then splitGo title buf running rest
    else if 800 < running + (pyStrip b).length ∧ buf ≠ [] then
      ⟨title, buf⟩ :: splitGo title [pyStrip b] (pyStrip b).length rest
    else splitGo title (buf ++ [pyStrip b]) (running + (pyStrip b).length) rest

/-- `parser._split_by_char_budget`: split an over-budget bullet list into
parts, retitling every part after the first with a `" (cont.)"` suffix. -/
def splitByCharBudget (title : Str) (bullets : List Str) : List Part :=
  match splitGo title [] 0 bullets with
  | [] => []
  | p :: ps => p :: ps.map (fun q => { q with title := title ++ " (cont.)".data })

theorem splitGo_flat (title : Str) :
    ∀ (l : List Str) (buf : List Str) (running : Nat),
      (splitGo title buf running l).flatMap Part.bullets =
        buf ++ (l.map pyStrip).filter (· ≠ []) := by
  intro l
  induction l with
  | nil =>
    intro buf running
    by_cases hbuf : buf ≠ []
    · rw [splitGo, if_pos hbuf]
      simp [Part.bullets]
    · rw [splitGo, if_neg hbuf]
      simp only [ne_eq, not_not] at hbuf
      simp [hbuf]
  | cons b rest ih =>
    intro buf running
    rw [splitGo]
    by_cases hb : pyStrip b = []
    · rw [if_pos hb, ih]
      simp [hb]
    · rw [if_neg hb]
      by_cases hflush : 800 < running + (pyStrip b).length ∧ buf ≠ []
      · rw [if_pos hflush]
        rw [List.flatMap_cons, ih]
        simp [hb]
      · rw [if_neg hflush, ih]
        simp [hb]

theorem splitGo_nonempty (title : Str) :
    ∀ (l : List Str) (buf : List Str) (running : Nat),
      ∀ p ∈ splitGo title buf running l, p.bullets ≠ [] := by
  intro l
  induction l with
  | nil =>
    intro buf running p hp
    by_cases hbuf : buf ≠ []
    · rw [splitGo, if_pos hbuf] at hp
      rcases List.mem_singleton.mp hp with rfl
      exact hbuf
    · rw [splitGo, if_neg hbuf] at hp
      cases hp
  | cons b rest ih =>
    intro buf running p hp
    rw [splitGo] at hp
    by_cases hb : pyStrip b = []
    · rw [if_pos hb] at hp
      exact ih _ _ p hp
    · rw [if_neg hb] at hp
      by_cases hflush : 800 < running + (pyStrip b).length ∧ buf ≠ []
      · rw [if_pos hflush] at hp
        rcases List.mem_cons.mp hp with rfl | hp'
        · exact hflush.2
        · exact ih _ _ p hp'
      · rw [if_neg hflush] at hp
        exact ih _ _ p hp

theorem splitGo_titles (title : Str) :
    ∀ (l : List Str) (buf : List Str) (running : Nat),
      ∀ p ∈ splitGo title buf running l, p.title = title := by
  intro l
  induction l with
  | nil =>
    intro buf running p hp
    by_cases hbuf : buf ≠ []
    · rw [splitGo, if_pos hbuf] at hp
      rcases List.mem_singleton.mp hp with rfl
      rfl
    · rw [splitGo, if_neg hbuf] at hp
      cases hp
  | cons b rest ih =>
    intro buf running p hp
    rw [splitGo] at hp
    by_cases hb : pyStrip b = []
    · rw [if_pos hb] at hp
      exact ih _ _ p hp
    · rw [if_neg hb] at hp
      by_cases hflush : 800 < running + (pyStrip b).length ∧ buf ≠ []
      · rw [if_pos hflush] at hp
        rcases List.mem_cons.mp hp with rfl | hp'
        · rfl
        · exact ih _ _ p hp'
      · rw [if_neg hflush] at hp
        exact ih _ _ p hp

/-! ## Claim C10 — the char-budget splitter preserves bullets -/

/-- C10: `_split_by_char_budget` preserves bullet content and order: the
concatenated bullets of the returned parts equal the input list with
empty/whitespace-only entries removed and the rest stripped; every part
has a non-empty bullets list; the first part keeps the given title; and
every later part's title is the given title with a `" (cont.)"` suffix. -/
theorem c10_split_char_budget (title : Str) (bullets : List Str) :
    ((splitByCharBudget title bullets).flatMap Part.bullets =
        (bullets.map pyStrip).filter (· ≠ [])) ∧
    (∀ p ∈ splitByCharBudget title bullets, p.bullets ≠ []) ∧
    (∀ p ∈ (splitByCharBudget title bullets).take 1, p.title = title) ∧
    (∀ p ∈ (splitByCharBudget title bullets).drop 1,
      p.title = title ++ " (cont.)".data) := by
  unfold splitByCharBudget
  cases hgo : splitGo title [] 0 bullets with
  | nil =>
    have hflat := splitGo_flat title bullets [] 0
    rw [hgo] at hflat
    simp only [List.flatMap_nil, List.nil_append] at hflat
    exact ⟨hflat, by simp, by simp, by simp⟩
  | cons p ps =>
    have hflat := splitGo_flat title bullets [] 0
    rw [hgo] at hflat
    simp only [List.nil_append] at hflat
    refine ⟨?_, ?_, ?_, ?_⟩
    · rw [← hflat]
      simp only [List.flatMap_cons, List.flatMap_map]
    · intro q hq
      rcases List.mem_cons.mp hq with rfl | hq'
      · exact splitGo_nonempty title bullets [] 0 q (by rw [hgo]; simp)
      · rcases List.mem_map.mp hq' with ⟨r, hr, rfl⟩
        exact splitGo_nonempty title bullets [] 0 r (by rw [hgo]; simp [hr])
    · intro q hq
      simp only [List.take_succ_cons, List.take_zero, List.mem_singleton] at hq
      subst hq
      exact splitGo_titles title bullets [] 0 q (by rw [hgo]; simp)
    · intro q hq
      simp only [List.drop_succ_cons, List.drop_zero] at hq
      rcases List.mem_map.mp hq with ⟨r, _, rfl⟩
      rfl

/-! ## `app/parser.py` — precompiled regexes, modelled as deterministic
matchers with Python `re` semantics (greedy/lazy quantifiers with
backtracking, `\b` word boundaries on the ASCII core of `\w`). -/

/-- ASCII decimal digit (the core of `\d`). -/
def isDigitC (c : Char) : Bool := 0x30 ≤ c.toNat && c.toNat ≤ 0x39

/-- ASCII letter (`[a-zA-Z]`). -/
def isAsciiLetter (c : Char) : Bool :=
  (0x61 ≤ c.toNat && c.toNat ≤ 0x7a) || (0x41 ≤ c.toNat && c.toNat ≤ 0x5a)

/-- `RE_EMAIL`'s local-part class `[a-zA-Z0-9._%+-]`. -/
def isEmailLocal (c : Char) : Bool :=
  isAsciiLetter c || isDigitC c || c == '.' || c == '_' || c == '%' ||
  c == '+' || c == '-'

/-- `RE_EMAIL`'s domain class `[a-zA-Z0-9.-]`. -/
def isEmailDomain (c : Char) : Bool :=
  isAsciiLetter c || isDigitC c || c == '.' || c == '-'

/-- `[A-Za-z0-9]` (`RE_OPENAI_KEY`'s tail class). -/
def isAlnum (c : Char) : Bool := isAsciiLetter c || isDigitC c

/-- `[a-fA-F0-9]` (`RE_HEX_SECRET`'s class). -/
def isHexC (c : Char) : Bool :=
  isDigitC c || (0x61 ≤ c.toNat && c.toNat ≤ 0x66) ||
  (0x41 ≤ c.toNat && c.toNat ≤ 0x46)

/-- `[\d\-\s]` (`RE_PHONE`'s inner class). -/
def isPhoneC (c : Char) : Bool := isDigitC c || c == '-' || isPySpace c

/-- `[ -]` (`RE_CCARD`'s separator class). -/
def isGapC (c : Char) : Bool := c == ' ' || c == '-'

/-- Word-character test for `s[i]`; past the end counts as non-word (the
end-of-string side of a `\b`). -/
def isWordAt (s : Str) (i : Nat) : Bool :=
  match s[i]? with
  | Option.some c => isPyWord c
  | Option.none => false

/-- Digit test for `s[i]`. -/
def isDigitAt (s : Str) (i : Nat) : Bool :=
  match s[i]? with
  | Option.some c => isDigitC c
  | Option.none => false

/-- Length of the maximal run of `p`-characters at the head of `s`. -/
def runLen (p : Char → Bool) (s : Str) : Nat := (s.takeWhile p).length

/-- Backtracking search for `RE_EMAIL` after the `@`: the greedy domain
`[a-zA-Z0-9.-]+` gives characters back (`k + 1` counts the domain length
down from its maximal run) until a literal `.`, at least two letters and a
closing `\b` fit. Returns the length consumed after the `@`. -/
def emailDomainAt (t : Str) : Nat → Option Nat
  | 0 => Option.none
  | k + 1 =>
    if t[k + 1]? = Option.some '.' ∧
        2 ≤ runLen isAsciiLetter (t.drop (k + 2)) ∧
        ¬ isWordAt t (k + 2 + runLen isAsciiLetter (t.drop (k + 2))) then
      Option.some (k + 2 + runLen isAsciiLetter (t.drop (k + 2)))
    else emailDomainAt t k

/-- `RE_EMAIL` continuation after a local part of length `L`. -/
def emailTail (s : Str) (L : Nat) : Option Nat :=
  match emailDomainAt (s.drop (L + 1))
      (runLen isEmailDomain (s.drop (L + 1))) with
  | Option.some n => Option.some (L + 1 + n)
  | Option.none => Option.none

/-- `RE_EMAIL` = `\b[a-zA-Z0-9._%+-]+@[a-zA-Z0-9.-]+\.[a-zA-Z]{2,}\b` at
the current position; `prevW` says whether the preceding character is a
word character (for the `\b`). Returns the match length. -/
def emailAt (prevW : Bool) (s : Str) : Option Nat :=
  if runLen isEmailLocal s = 0 then Option.none
  else if isWordAt s 0 = prevW then Option.none
  else if s[runLen isEmailLocal s]? = Option.some '@' then
    emailTail s (runLen isEmailLocal s)
  else Option.none

/-- Greedy trailing-`\b` search for `RE_URL`'s `\S+`: the longest nonempty
prefix of the non-space run whose end sits on a word boundary (`afterW` is
the word-ness of the first character after the run). -/
def urlSplit : Str → Bool → Option Nat
  | [], _ => Option.none
  | [c], afterW =>
    if isPyWord c ≠ afterW then Option.some 1 else Option.none
  | c :: d :: rest, afterW =>
    match urlSplit (d :: rest) afterW with
    | Option.some j => Option.some (j + 1)
    | Option.none =>
      if isPyWord c ≠ isPyWord d then Option.some 1 else Option.none

/-- `RE_URL` = `\bhttps?://\S+\b` at the current position. -/
def urlAt (prevW : Bool) (s : Str) : Option Nat :=
  if prevW then Option.none
  else if "https://".data <+: s then
    match urlSplit ((s.drop 8).takeWhile (fun c => !isPySpace c))
        (isWordAt s (8 + runLen (fun c => !isPySpace c) (s.drop 8))) with
    | Option.some j => Option.some (8 + j)
    | Option.none => Option.none
  else if "http://".data <+: s then
    match urlSplit ((s.drop 7).takeWhile (fun c => !isPySpace c))
        (isWordAt s (7 + runLen (fun c => !isPySpace c) (s.drop 7))) with
    | Option.some j => Option.some (7 + j)
    | Option.none => Option.none
  else Option.none

/-- `RE_OPENAI_KEY` = `\bsk-[A-Za-z0-9]{16,}\b` at the current position. -/
def skKeyAt (prevW : Bool) (s : Str) : Option Nat :=
  if prevW then Option.none
  else if "sk-".data <+: s then
    if 16 ≤ runLen isAlnum (s.drop 3) ∧
        ¬ isWordAt s (3 + runLen isAlnum (s.drop 3)) then
      Option.some (3 + runLen isAlnum (s.drop 3))
    else Option.none
  else Option.none

/-- `RE_HEX_SECRET` = `\b[a-fA-F0-9]{32,128}\b` at the current position
(a longer hex run never matches: every shorter cut fails its `\b`). -/
def hexSecretAt (prevW : Bool) (s : Str) : Option Nat :=
  if prevW then Option.none
  else if 32 ≤ runLen isHexC s ∧ runLen isHexC s ≤ 128 ∧
      ¬ isWordAt s (runLen isHexC s) then
    Option.some (runLen isHexC s)
  else Option.none

/-- Greedy search for the end of `RE_PHONE`'s `[\d\-\s]{7,}\d\b`: `u` is
the string after the leading digit, the counter is the candidate inner
length (counting down from the maximal `[\d\-\s]` run); the closing digit
sits right after the inner chunk. Returns the whole match length from the
leading digit on. -/
def phoneCore (u : Str) : Nat → Option Nat
  | 0 => Option.none
  | m + 1 =>
    if 7 ≤ m + 1 ∧ isDigitAt u (m + 1) ∧ ¬ isWordAt u (m + 2) then
      Option.some (m + 3)
    else phoneCore u m

/-- The `+`-consuming branch of `RE_PHONE` (the `+` counts one character
on top of the core match). -/
def phonePlus : Str → Option Nat
  | [] => Option.none
  | d :: u =>
    if isDigitC d then (phoneCore u (runLen isPhoneC u)).map (· + 1)
    else Option.none

/-- `RE_PHONE` = `\b(?:\+?\d[\d\-\s]{7,}\d)\b` at the current position. A
leading `+` needs a preceding word character for its `\b`; a leading digit
needs a preceding non-word character. -/
def phoneAt (prevW : Bool) : Str → Option Nat
  | [] => Option.none
  | c :: rest =>
    if c = '+' then (if prevW then phonePlus rest else Option.none)
    else if isDigitC c then
      (if prevW then Option.none else phoneCore rest (runLen isPhoneC rest))
    else Option.none

/-- End positions after each `RE_CCARD` unit `\d[ -]*?` reachable by lazy
bridging over `[ -]` separators, at most `fuel` (= 19) units. -/
def ccardEnds (s : Str) : Nat → Nat → List Nat
  | 0, _ => []
  | fuel + 1, i =>
    if isDigitAt s i then
      (i + 1) :: ccardEnds s fuel (i + 1 + runLen isGapC (s.drop (i + 1)))
    else []

/-- Greedy repetition-count search for `RE_CCARD`: try the largest unit
count first (`cnt` pairs with the reversed end-position list), accept at a
count of at least 13 whose end sits on a `\b`. -/
def ccardSearch (s : Str) : Nat → List Nat → Option Nat
  | _, [] => Option.none
  | cnt, e :: rest =>
    if 13 ≤ cnt ∧ ¬ isWordAt s e then Option.some e
    else ccardSearch s (cnt - 1) rest

/-- `RE_CCARD` = `\b(?:\d[ -]*?){13,19}\b` at the current position. A match
always ends at a digit: the trailing lazy `[ -]*?` can only extend over
non-word characters, which never repair a failing `\b`. -/
def ccardAt (prevW : Bool) (s : Str) : Option Nat :=
  if prevW then Option.none
  else ccardSearch s (ccardEnds s 19 0).length (ccardEnds s 19 0).reverse

/-- One pass of `re.sub`: scan positions left to right with the word
context of the previous character, splice the replacement over each
leftmost non-overlapping match (`matchAt` returns match length and
replacement). The fuel (`s.length` at top level) bounds the scan; every
step consumes at least one character. -/
def subScanF (matchAt : Bool → Str → Option (Nat × Str)) :
    Nat → Bool → Str → Str
  | 0, _, s => s
  | _ + 1, _, [] => []
  | fuel + 1, prevW, c :: rest =>
    match matchAt prevW (c :: rest) with
    | Option.some (n, rep) =>
      if n = 0 then c :: subScanF matchAt fuel (isPyWord c) rest
      else rep ++ subScanF matchAt fuel (isWordAt (c :: rest) (n - 1))
          ((c :: rest).drop n)
    | Option.none => c :: subScanF matchAt fuel (isPyWord c) rest

/-- `pattern.sub(replacement, s)` for the modelled patterns. -/
def reSub (matchAt : Bool → Str → Option (Nat × Str)) (s : Str) : Str :=
  subScanF matchAt s.length false s

/-- Wrap a fixed-marker matcher: every match is replaced by `"[…]"`. -/
def redactAt (m : Bool → Str → Option Nat) (prevW : Bool) (s : Str) :
    Option (Nat × Str) :=
  match m prevW s with
  | Option.some n => Option.some (n, "[…]".data)
  | Option.none => Option.none

/-- The first five passes of `parser._scrub_sensitive` (email, url,
OpenAI key, hex secret, phone). -/
def scrubPre (t : Str) : Str :=
  reSub (redactAt phoneAt)
    (reSub (redactAt hexSecretAt)
      (reSub (redactAt skKeyAt)
        (reSub (redactAt urlAt)
          (reSub (redactAt emailAt) t))))

/-- `parser._scrub_sensitive`: five unconditional passes, then the
credit-card pass only when at least 12 digits remain. -/
def scrubSensitive (t : Str) : Str :=
  if t = [] then t
  else if 12 ≤ ((scrubPre t).filter isDigitC).length then
    reSub (redactAt ccardAt) (scrubPre t)
  else scrubPre t

/-- Lazy scan of `RE_IMG_MD`'s first `.*?` up to the `](` separator (`.`
never crosses a newline): offset of the `]`. -/
def imgScanA : Str → Option Nat
  | [] => Option.none
  | [_] => Option.none
  | c :: d :: rest =>
    if c = ']' ∧ d = '(' then Option.some 0
    else if c = '\n' then Option.none
    else match imgScanA (d :: rest) with
      | Option.some i => Option.some (i + 1)
      | Option.none => Option.none

/-- Lazy scan of `RE_IMG_MD`'s second `.*?` up to `)`: offset of the `)`. -/
def imgScanB : Str → Option Nat
  | [] => Option.none
  | c :: rest =>
    if c = ')' then Option.some 0
    else if c = '\n' then Option.none
    else match imgScanB rest with
      | Option.some i => Option.some (i + 1)
      | Option.none => Option.none

/-- `RE_IMG_MD` = `!\[.*?\]\(.*?\)`; the replacement is empty. -/
def imgMdAt (_ : Bool) (s : Str) : Option (Nat × Str) :=
  if "![".data <+: s then
    match imgScanA (s.drop 2) with
    | Option.some a =>
      match imgScanB (s.drop (2 + a + 2)) with
      | Option.some b => Option.some (2 + a + 2 + b + 1, [])
      | Option.none => Option.none
    | Option.none => Option.none
  else Option.none

/-- `RE_LINK_MD` continuation: `a` is the length of the greedy `[^\]]+`
group (which by construction stops at the first `]`). -/
def linkMdTail (rest : Str) (a : Nat) : Option (Nat × Str) :=
  if rest[a]? = Option.some ']' ∧ rest[a + 1]? = Option.some '(' ∧
      1 ≤ runLen (fun c => c != ')') (rest.drop (a + 2)) ∧
      rest[a + 2 + runLen (fun c => c != ')') (rest.drop (a + 2))]? =
        Option.some ')' then
    Option.some
      (1 + a + 2 + runLen (fun c => c != ')') (rest.drop (a + 2)) + 1,
        rest.take a)
  else Option.none

/-- `RE_LINK_MD` = `\[([^\]]+)\]\([^)]+\)`; replaced by the label group. -/
def linkMdAt (_ : Bool) (s : Str) : Option (Nat × Str) :=
  match s with
  | '[' :: rest =>
    if 1 ≤ runLen (fun c => c != ']') rest then
      linkMdTail rest (runLen (fun c => c != ']') rest)
    else Option.none
  | _ => Option.none

/-- `RE_HTML_TAG` = `<[^>]+>`; the replacement is empty. -/
def htmlTagAt (_ : Bool) (s : Str) : Option (Nat × Str) :=
  match s with
  | '<' :: rest =>
    if 1 ≤ runLen (fun c => c != '>') rest ∧
        rest[runLen (fun c => c != '>') rest]? = Option.some '>' then
      Option.some (1 + runLen (fun c => c != '>') rest + 1, [])
    else Option.none
  | _ => Option.none

/-- `parser._strip_markup`: drop images, keep link labels, drop tags. -/
def stripMarkup (t : Str) : Str :=
  reSub htmlTagAt (reSub linkMdAt (reSub imgMdAt t))

/-- `parser._truncate`: collapse whitespace, then clamp to `n` characters
with a rstripped cut and an ellipsis. -/
def pTruncate (s : Str) (n : Nat) : Str :=
  if (collapseWs s).length ≤ n then collapseWs s
  else pyRstrip ((collapseWs s).take (n - 1)) ++ ['…']

/-- `parser._word_count` scan: counts maximal word-character runs
(`len(RE_WORD.findall(s))`). -/
def wordCountGo : Bool → Str → Nat
  | _, [] => 0
  | prevW, c :: rest =>
    if isPyWord c && !prevW then wordCountGo true rest + 1
    else wordCountGo (isPyWord c) rest

/-- `parser._word_count`. -/
def wordCount (s : Str) : Nat := wordCountGo false s

/-! ## `app/parser.py` — sentence splitting, guidance biases, archetypes -/

/-- The sentence-final punctuation of `RE_SENTENCES` (all four lookbehind
alternatives are subsets of the first). -/
def isSentPunct (c : Char) : Bool :=
  c == '。' || c == '！' || c == '？' || c == '!' || c == '?' || c == '.'

/-- `RE_SENTENCES.split` scan: a maximal whitespace run preceded by
sentence punctuation separates pieces. The current piece is the head of
the result; the flags carry whether the previous character was sentence
punctuation and whether the scan is inside a separator run. -/
def sentGo : Bool → Bool → Str → List Str
  | _, _, [] => [[]]
  | _, true, c :: rest =>
    if isPySpace c then sentGo false true rest
    else (sentGo (isSentPunct c) false rest).modifyHead (c :: ·)
  | prevPunct, false, c :: rest =>
    if isPySpace c && prevPunct then [] :: sentGo false true rest
    else (sentGo (isSentPunct c) false rest).modifyHead (c :: ·)

/-- `RE_SENTENCES.split(s)`. -/
def sentenceSplit (s : Str) : List Str := sentGo false false s

/-- `re.fullmatch(r"[.!?]+", s)` as a Boolean. -/
def punctOnly (s : Str) : Bool :=
  !s.isEmpty && s.all (fun c => c == '.' || c == '!' || c == '?')

/-- `re.search(r"\b<kw>\b", ...)` scan for a letters-only keyword. -/
def wordSearchGo (kw : Str) : Bool → Str → Bool
  | _, [] => false
  | prevW, c :: rest =>
    if ¬ prevW ∧ kw <+: (c :: rest) ∧ ¬ isWordAt (c :: rest) kw.length then
      true
    else wordSearchGo kw (isPyWord c) rest

/-- Word-bounded keyword search from the start of the string. -/
def reWordSearch (kw s : Str) : Bool := wordSearchGo kw false s

/-- `parser._likely_legal` (case-insensitive `\b`-bounded alternation). -/
def likelyLegal (text : Str) : Bool :=
  ["policy", "compliance", "gdpr", "hipaa", "terms", "contract", "license",
    "liability"].any (fun kw => reWordSearch kw.data (pyLower text))

/-- `parser._likely_medical`. -/
def likelyMedical (text : Str) : Bool :=
  ["clinical", "diagnos", "treatment", "adverse", "contraindication",
    "guideline", "prescrib"].any (fun kw => reWordSearch kw.data (pyLower text))

/-- `parser._has_meaningful_notes`. -/
def hasMeaningfulNotes (includeNotes : Bool) (notesText : Str) : Bool :=
  includeNotes && decide (pyStrip notesText ≠ [])

/-- `parser.ALLOWED_LAYOUTS` membership. -/
def isAllowedLayout (x : Str) : Bool :=
  ["auto", "Title and Content", "Two Content", "Content with Caption",
    "Picture with Caption", "Blank"].any (fun a => a.data == x)

/-- `parser._layout_bias_from_guidance`. -/
def layoutBiasFromGuidance (guidance : Str) : Str :=
  if ["visual", "image", "design-heavy", "poster"].any
      (fun k => pyIn k.data (pyLower guidance)) then
    "Picture with Caption".data
  else if ["executive", "summary", "tl;dr"].any
      (fun k => pyIn k.data (pyLower guidance)) then
    "Content with Caption".data
  else if ["technical", "deep dive", "details"].any
      (fun k => pyIn k.data (pyLower guidance)) then
    "Two Content".data
  else "auto".data

/-- `parser._bullet_target_from_guidance`. -/
def bulletTargetFromGuidance (guidance : Str) : Nat :=
  if ["executive", "brief", "summary"].any
      (fun k => pyIn k.data (pyLower guidance)) then 3
  else if ["technical", "detailed", "thorough"].any
      (fun k => pyIn k.data (pyLower guidance)) then 6
  else 5

/-- `parser._detect_archetype`. -/
def detectArchetype (guidance : Str) : Option Str :=
  if pyIn "investor".data (pyLower guidance) ||
      pyIn "pitch".data (pyLower guidance) then Option.some "investor".data
  else if pyIn "sop".data (pyLower guidance) ||
      pyIn "runbook".data (pyLower guidance) ||
      pyIn "standard operating".data (pyLower guidance) then
    Option.some "sop".data
  else if pyIn "sales".data (pyLower guidance) then Option.some "sales".data
  else if pyIn "research".data (pyLower guidance) ||
      pyIn "conference".data (pyLower guidance) ||
      pyIn "talk".data (pyLower guidance) ||
      pyIn "paper".data (pyLower guidance) then Option.some "research".data
  else if pyIn "lesson".data (pyLower guidance) ||
      pyIn "quiz".data (pyLower guidance) ||
      pyIn "lecture".data (pyLower guidance) ||
      pyIn "teaching".data (pyLower guidance) then Option.some "lesson".data
  else Option.none

/-- `parser._archetype_sections`. -/
def archetypeSections (kind : Str) : List Str :=
  if kind = "investor".data then
    ["Problem".data, "Solution".data, "Market".data, "Product".data,
     "Moat".data, "Go-To-Market".data, "Traction".data,
     "Business Model".data, "Competition".data, "Team".data,
     "Financials".data, "Ask".data, "Roadmap".data]
  else if kind = "sop".data then
    ["Purpose".data, "Scope".data, "Prerequisites".data, "Procedure".data,
     "Validation/Checks".data, "Rollback/Recovery".data,
     "Contact/On-call".data]
  else if kind = "sales".data then
    ["Overview".data, "Value Proposition".data, "ROI/Impact".data,
     "Case Studies".data, "Pricing".data, "Call to Action".data]
  else if kind = "research".data then
    ["Background".data, "Methods".data, "Results".data, "Limitations".data,
     "Future Work".data, "References/Acknowledgements".data]
  else if kind = "lesson".data then
    ["Objectives".data, "Key Concepts".data, "Examples".data,
     "Practice Questions".data, "Summary".data]
  else []

/-- `parser._chunks` (`n ≥ 1` always holds at the call site). -/
def chunksF : Nat → List Str → Nat → List (List Str)
  | 0, _, _ => []
  | _, [], _ => []
  | fuel + 1, l, n => l.take n :: chunksF fuel (l.drop n) n

/-- `list(_chunks(lst, n))`. -/
def chunksList (l : List Str) (n : Nat) : List (List Str) :=
  chunksF l.length l n

/-- Decimal rendering of a natural number (Python `str`/f-string). -/
def natToStr (n : Nat) : Str := Nat.toDigits 10 n

/-- `parser._generate_notes_from_bullets`. -/
def generateNotes (bullets : List Str) : Str :=
  if bullets = [] then []
  else if 3 ≤ (bullets.take 4).length then
    pTruncate ("Key points: ".data ++
      List.intercalate "; ".data ((bullets.take 4).map collapseWs) ++
      ".".data) 380
  else
    pTruncate (List.intercalate "; ".data ((bullets.take 4).map collapseWs))
      380

/-! ## `app/parser.py` — `heuristic_outline`, pass 1 state machine -/

/-- A slide dict as built by `heuristic_outline`. -/
structure PSlide where
  title : Str
  bullets : List Str
  layout : Str
  notes : Option Str
deriving DecidableEq, Repr

/-- Python `x or default` for an optional string (None and `""` both fall
through to the default). -/
def pyOrElse (o : Option Str) (d : Str) : Str :=
  match o with
  | Option.some t => if t = [] then d else t
  | Option.none => d

/-- The bullet-cleaning step of `flush_slide`: scrub each truncated
markup-stripped bullet, drop blanks, dedupe. -/
def flushBullets (bs : List Str) : List Str :=
  pyDedup (((bs.filter (fun b => !b.isEmpty && !(pyStrip b).isEmpty)).map
    (fun b => scrubSensitive (pTruncate (stripMarkup b) 160))).filter
      (fun b => !(pyStrip b).isEmpty))

/-- `flush_slide`'s layout choice: "Two Content" over the bullet cap, else
the guidance bias when it is an allowed layout name, else "auto" (the
two-step `chosen_layout` logic collapsed into one conditional). -/
def flushChosen (nBullets : Nat) (bias : Str) : Str :=
  if 7 < nBullets then "Two Content".data
  else if isAllowedLayout bias then bias
  else "auto".data

/-- One output slide of `flush_slide` from a char-budget part. -/
def flushPart (isFirst : Bool) (curTitle : Option Str) (bias : Str)
    (includeNotes : Bool) (part : Part) : PSlide :=
  { title := if isFirst then part.title
      else pyOrElse curTitle "Overview".data ++ " (cont.)".data,
    bullets := part.bullets.take 7,
    layout := if isAllowedLayout (flushChosen part.bullets.length bias) then
        flushChosen part.bullets.length bias
      else "auto".data,
    notes := if includeNotes then
        Option.some (generateNotes (part.bullets.take 7))
      else Option.none }

/-- `flush_slide`: emit the pending title/bullets as one or more slides
(empty state emits nothing). -/
def flushSlide (curTitle : Option Str) (curBullets : List Str) (bias : Str)
    (includeNotes : Bool) : List PSlide :=
  if curTitle.getD [] = [] ∧ curBullets = [] then []
  else
    match splitByCharBudget (pyOrElse curTitle "Overview".data)
        (flushBullets curBullets) with
    | [] => []
    | p :: ps =>
      flushPart true curTitle bias includeNotes p ::
        ps.map (flushPart false curTitle bias includeNotes)

/-- The markdown-it token types `heuristic_outline` dispatches on (any
other type behaves as `other`). -/
inductive TokType where
  | headingOpen | inline | bulletListOpen | orderedListOpen
  | bulletListClose | orderedListClose | listItemOpen | listItemClose
  | blockquoteOpen | blockquoteClose | tableOpen | tableClose
  | paragraphOpen | fence | other
deriving DecidableEq, Repr

/-- A markdown-it token (`md.parse` is external; the walk is verified for
every token stream). -/
structure Token where
  typ : TokType
  content : Str
  info : Str
deriving DecidableEq, Repr

/-- The `list_item_open` inner scan: gather inline contents (each prefixed
by a space) up to the next `list_item_close`/`list_item_open`, which is
left in the remainder (`i = j`). -/
def listItemSpan : List Token → (Str × List Token)
  | [] => ([], [])
  | t :: ts =>
    if t.typ = TokType.listItemClose ∨ t.typ = TokType.listItemOpen then
      ([], t :: ts)
    else
      match listItemSpan ts with
      | (buf, rest) =>
        ((if t.typ = TokType.inline then ' ' :: t.content else []) ++ buf,
          rest)

/-- The `blockquote_open` inner scan up to `blockquote_close`. -/
def blockquoteSpan : List Token → (Str × List Token)
  | [] => ([], [])
  | t :: ts =>
    if t.typ = TokType.blockquoteClose then ([], t :: ts)
    else
      match blockquoteSpan ts with
      | (buf, rest) =>
        ((if t.typ = TokType.inline then ' ' :: t.content else []) ++ buf,
          rest)

/-- The `table_open` inner scan up to `table_close`: the collapsed
markup-stripped nonempty inline rows. -/
def tableSpan : List Token → (List Str × List Token)
  | [] => ([], [])
  | t :: ts =>
    if t.typ = TokType.tableClose then ([], t :: ts)
    else
      match tableSpan ts with
      | (rows, rest) =>
        ((if t.typ = TokType.inline ∧
            collapseWs (stripMarkup t.content) ≠ [] then
          [collapseWs (stripMarkup t.content)] else []) ++ rows, rest)

/-- Pass 1 of `heuristic_outline`: the markdown-aware token walk. The
state is the pending title, pending bullets and the list nesting level;
after a flush the pending title/bullets are empty (`None` and the falsy
`""` behave identically everywhere downstream). The fuel is the token
count: every iteration consumes at least one token. -/
def pass1F (bias : Str) (btarget : Nat) (includeNotes : Bool) :
    Nat → List Token → Option Str → List Str → Nat → List PSlide
  | 0, _, curT, curB, _ => flushSlide curT curB bias includeNotes
  | _ + 1, [], curT, curB, _ => flushSlide curT curB bias includeNotes
  | fuel + 1, t :: ts, curT, curB, lvl =>
    if t.typ = TokType.headingOpen then
      flushSlide curT curB bias includeNotes ++
        (match ts with
        | next :: rest2 =>
          if next.typ = TokType.inline then
            pass1F bias btarget includeNotes fuel rest2
              (Option.some (pTruncate (stripMarkup next.content) 80)) [] lvl
          else pass1F bias btarget includeNotes fuel ts Option.none [] lvl
        | [] => pass1F bias btarget includeNotes fuel [] Option.none [] lvl)
    else if t.typ = TokType.bulletListOpen ∨
        t.typ = TokType.orderedListOpen then
      pass1F bias btarget includeNotes fuel ts curT curB (lvl + 1)
    else if t.typ = TokType.bulletListClose ∨
        t.typ = TokType.orderedListClose then
      pass1F bias btarget includeNotes fuel ts curT curB (lvl - 1)
    else if t.typ = TokType.listItemOpen then
      pass1F bias btarget includeNotes fuel (listItemSpan ts).2 curT
        (curB ++
          (if collapseWs (stripMarkup (listItemSpan ts).1) ≠ [] then
            [(if 2 ≤ lvl then "  • ".data else []) ++
              collapseWs (stripMarkup (listItemSpan ts).1)]
          else [])) lvl
    else if t.typ = TokType.blockquoteOpen then
      pass1F bias btarget includeNotes fuel (blockquoteSpan ts).2 curT
        (curB ++
          (if collapseWs (stripMarkup (blockquoteSpan ts).1) ≠ [] then
            ["Quote: ".data ++ collapseWs (stripMarkup (blockquoteSpan ts).1)]
          else [])) lvl
    else if t.typ = TokType.tableOpen then
      pass1F bias btarget includeNotes fuel (tableSpan ts).2 curT
        (curB ++ ((tableSpan ts).1.take (btarget + 2)).map
          (fun r => pTruncate r 160)) lvl
    else if t.typ = TokType.paragraphOpen then
      pass1F bias btarget includeNotes fuel ts curT
        (curB ++
          (match ts with
          | next :: _ =>
            if next.typ = TokType.inline ∧
                collapseWs (stripMarkup next.content) ≠ [] then
              [collapseWs (stripMarkup next.content)]
            else []
          | [] => [])) lvl
    else if t.typ = TokType.fence then
      pass1F bias btarget includeNotes fuel ts curT
        (curB ++ ["Code: ".data ++
          (if pyStrip t.info = [] then "code".data else pyStrip t.info) ++
          " block (~".data ++ natToStr (splitLines t.content).length ++
          " lines) – summary unavailable".data]) lvl
    else pass1F bias btarget includeNotes fuel ts curT curB lvl

/-- Pass 1 from the start state. -/
def pass1Slides (tokens : List Token) (guidance : Str)
    (includeNotes : Bool) : List PSlide :=
  pass1F (layoutBiasFromGuidance guidance) (bulletTargetFromGuidance guidance)
    includeNotes tokens.length tokens Option.none [] 0

/-! ## `heuristic_outline` — fallback paths, disclaimer, final cleanup -/

/-- `any(s["title"] and s["title"] not in ("Overview", "Slide") ...)`. -/
def haveRealTitles (slides : List PSlide) : Bool :=
  slides.any (fun s => !s.title.isEmpty &&
    !(s.title == "Overview".data || s.title == "Slide".data))

/-- The filtered sentence list of the fallback paths. -/
def rawSentences (raw : Str) : List Str :=
  (sentenceSplit (collapseWs raw)).filter (fun s => !s.isEmpty && !punctOnly s)

/-- The archetype bucketing loop: append each truncated sentence to the
bucket `_keyword_bucket` picks. -/
def bucketFill (hash : Str → Int) (sections : List Str)
    (sentences : List Str) : List (List Str) :=
  sentences.foldl
    (fun acc s => acc.set (keywordBucket hash s sections)
      (acc.getD (keywordBucket hash s sections) [] ++ [pTruncate s 160]))
    (sections.map (fun _ => []))

/-- Slides built from nonempty archetype buckets (parser lines 399-415). -/
def archetypeSlides (bias : Str) (includeNotes : Bool)
    (sections : List Str) (bucketed : List (List Str)) : List PSlide :=
  (sections.zip bucketed).flatMap (fun sg =>
    if sg.2 = [] then []
    else (splitByCharBudget sg.1 (pyDedup sg.2)).map (fun part =>
      { title := part.title,
        bullets := part.bullets.take 7,
        layout := if isAllowedLayout
            (if 7 < part.bullets.length then "Two Content".data else bias)
          then (if 7 < part.bullets.length then "Two Content".data else bias)
          else "auto".data,
        notes := if includeNotes then
            Option.some (generateNotes part.bullets) else Option.none }))

/-- The archetype stage: replaces the slide list only when an archetype
with a nonempty section list is detected. -/
def archetypeStage (hash : Str → Int) (raw guidance : Str)
    (includeNotes : Bool) (slides0 : List PSlide) : List PSlide :=
  match detectArchetype guidance with
  | Option.some kind =>
    if archetypeSections kind ≠ [] then
      archetypeSlides (layoutBiasFromGuidance guidance) includeNotes
        (archetypeSections kind)
        (bucketFill hash (archetypeSections kind) (rawSentences raw))
    else slides0
  | Option.none => slides0

/-- `sentences or ([raw] if raw.strip() else [])`. -/
def genericSents (raw : Str) (sentences : List Str) : List Str :=
  if sentences = [] then (if pyStrip raw ≠ [] then [raw] else [])
  else sentences

/-- The clamped approximate slide count of the generic chunking path. -/
def genericApprox (raw : Str) : Nat :=
  max 3 (min 40 (max 3 (min 25 (wordCount raw / max 1 ((60 + 110) / 2)))))

/-- The generic sentence-chunking fallback (parser lines 417-440). -/
def genericSlides (bias : Str) (includeNotes : Bool) (raw : Str)
    (sentences : List Str) : List PSlide :=
  (chunksList (genericSents raw sentences)
      (max 1 ((genericSents raw sentences).length /
        max 1 (genericApprox raw)))).enum.flatMap (fun ig =>
    if (ig.2.filter (fun sent => !sent.isEmpty)).map
        (fun sent => pTruncate (stripMarkup sent) 160) = [] then []
    else
      (splitByCharBudget ("Section ".data ++ natToStr (ig.1 + 1))
          ((ig.2.filter (fun sent => !sent.isEmpty)).map
            (fun sent => pTruncate (stripMarkup sent) 160))).map (fun p =>
        { title := p.title,
          bullets := (pyDedup p.bullets).take 7,
          layout := if isAllowedLayout bias then bias else "auto".data,
          notes := if includeNotes then
              Option.some (generateNotes p.bullets) else Option.none }))

/-- The fallback dispatcher (`if not slides or not have_real_titles`). -/
def phase2Slides (hash : Str → Int) (raw guidance : Str)
    (includeNotes : Bool) (slides0 : List PSlide) : List PSlide :=
  if slides0 = [] ∨ ¬ haveRealTitles slides0 then
    (if archetypeStage hash raw guidance includeNotes slides0 = [] then
      genericSlides (layoutBiasFromGuidance guidance) includeNotes raw
        (rawSentences raw)
    else archetypeStage hash raw guidance includeNotes slides0)
  else slides0

/-- The legal/medical disclaimer text. -/
def disclaimerStr : Str := "Informational only; not legal/medical advice.".data

/-- The disclaimer stage (parser lines 442-454). -/
def applyDisclaimer (includeNotes : Bool) (raw : Str)
    (slides : List PSlide) : List PSlide :=
  if !(likelyLegal (pyLower raw) || likelyMedical (pyLower raw)) then slides
  else if includeNotes ∧ slides ≠ [] then
    slides.modifyHead (fun s0 =>
      { s0 with notes := Option.some (pTruncate
          (pyStrip (pyStrip ((s0.notes.getD []) ++ " ".data) ++
            disclaimerStr)) 400) })
  else
    match slides.getLast? with
    | Option.some lastS =>
      slides.dropLast ++ [{ lastS with bullets :=
        if disclaimerStr ∈ lastS.bullets then lastS.bullets
        else lastS.bullets ++ [disclaimerStr] }]
    | Option.none => slides

/-- The final cleanup's bullet pipeline: filter blanks, scrub the
truncation, dedupe. -/
def cleanedBullets (s : PSlide) : List Str :=
  pyDedup ((s.bullets.filter (fun b => !b.isEmpty && !(pyStrip b).isEmpty)).map
    (fun b => scrubSensitive (pTruncate b 160)))

/-- The final cleanup's title. -/
def cleanedTitle (s : PSlide) : Str :=
  pTruncate (if s.title = [] then "Slide".data else s.title) 80

/-- The final cleanup's layout before the bullet-overflow rule. -/
def cleanedLayoutBase (includeNotes : Bool) (s : PSlide) : Str :=
  if hasMeaningfulNotes includeNotes (s.notes.getD []) ∧
      (if isAllowedLayout (if s.layout = [] then "auto".data else s.layout)
        then (if s.layout = [] then "auto".data else s.layout)
        else "auto".data) = "auto".data then
    "Content with Caption".data
  else
    (if isAllowedLayout (if s.layout = [] then "auto".data else s.layout)
      then (if s.layout = [] then "auto".data else s.layout)
      else "auto".data)

/-- The final cleanup's layout. -/
def cleanedLayout (includeNotes : Bool) (s : PSlide) : Str :=
  if 7 < (cleanedBullets s).length ∧
      cleanedLayoutBase includeNotes s ≠ "Two Content".data then
    "Two Content".data
  else cleanedLayoutBase includeNotes s

/-- One slide of the final cleanup pass (empty slides are dropped). -/
def cleanupSlide (includeNotes : Bool) (s : PSlide) : List PSlide :=
  if cleanedTitle s ≠ [] ∨ (cleanedBullets s).take 7 ≠ [] then
    [{ title := cleanedTitle s,
       bullets := (cleanedBullets s).take 7,
       layout := cleanedLayout includeNotes s,
       notes := if includeNotes then
           Option.some (pTruncate
             (if s.notes.getD [] ≠ [] then s.notes.getD []
              else generateNotes ((cleanedBullets s).take 7)) 400)
         else Option.none }]
  else []

/-- The final cleanup pass. -/
def cleanupPass (includeNotes : Bool) (slides : List PSlide) : List PSlide :=
  slides.flatMap (cleanupSlide includeNotes)

/-- The continuation slide of the parser-level `_ensure_min_slides`. -/
def contOf (includeNotes : Bool) (s : PSlide) : PSlide :=
  { title := s.title ++ " (cont.)".data,
    bullets := (s.bullets.drop 3).take 3,
    layout := s.layout,
    notes := if includeNotes then
        Option.some (generateNotes ((s.bullets.drop 3).take 3))
      else Option.none }

/-- The splitting loop of the parser-level `_ensure_min_slides` (the inner
`while` runs at most once per slide: the truncation leaves 3 bullets). -/
def ensureGoP (includeNotes : Bool) : List PSlide → List PSlide → List PSlide
  | out, [] => out
  | out, s :: rest =>
    if out.length + 1 < 3 ∧ 3 < s.bullets.length then
      ensureGoP includeNotes
        (out ++ [{ s with bullets := s.bullets.take 3 },
          contOf includeNotes s]) rest
    else ensureGoP includeNotes (out ++ [s]) rest

/-- The title-only padding loop of the parser-level `_ensure_min_slides`
(fuel 3 suffices: each pad grows the list towards MIN_SLIDES = 3). -/
def padGoP (includeNotes : Bool) : Nat → List PSlide → List PSlide
  | 0, out => out
  | fuel + 1, out =>
    if out.length < 3 then
      padGoP includeNotes fuel (out ++
        [{ title := "Slide ".data ++ natToStr (out.length + 1),
           bullets := [], layout := "Blank".data,
           notes := if includeNotes then Option.some [] else Option.none }])
    else out

/-- `parser._ensure_min_slides`. -/
def ensureMinP (includeNotes : Bool) (slidesIn : List PSlide) : List PSlide :=
  if 3 ≤ slidesIn.length then slidesIn
  else padGoP includeNotes 3 (ensureGoP includeNotes [] slidesIn)

/-- The deck-title fallback string. -/
def deckFallback (guidance : Str) : Str :=
  if guidance ≠ [] then
    "Generated Presentation — ".data ++ pTruncate guidance 60
  else "Generated Presentation".data

/-- The deck-title selection over the cleaned slides. -/
def deckTitle (guidance : Str) (cleaned : List PSlide) : Str :=
  match cleaned.find? (fun s =>
      !(s.title == "Overview".data || s.title == "Slide".data ||
        s.title == "Section 1".data)) with
  | Option.some s => if s.title = [] then deckFallback guidance else s.title
  | Option.none => deckFallback guidance

/-- The outline dict returned by `heuristic_outline`. -/
structure POutline where
  title : Str
  slides : List PSlide
  estimatedSlideCount : Nat
deriving DecidableEq, Repr

/-- The final slide list of `heuristic_outline`. -/
def finalSlides (hash : Str → Int) (tokens : List Token)
    (raw guidance : Str) (includeNotes : Bool) : List PSlide :=
  (ensureMinP includeNotes (cleanupPass includeNotes
    (applyDisclaimer includeNotes raw
      (phase2Slides hash raw guidance includeNotes
        (pass1Slides tokens guidance includeNotes))))).take 40

/-- `parser.heuristic_outline`, parameterized by the markdown-it token
stream of the input and Python's salted string hash. -/
def heuristicOutline (hash : Str → Int) (tokens : List Token)
    (raw guidance : Str) (includeNotes : Bool) : POutline :=
  { title := deckTitle guidance
      (finalSlides hash tokens raw guidance includeNotes),
    slides := finalSlides hash tokens raw guidance includeNotes,
    estimatedSlideCount :=
      (finalSlides hash tokens raw guidance includeNotes).length }

/-! ## Length bounds for the scrubbing machinery -/

theorem getElem?_some_lt {l : Str} {i : Nat} {c : Char}
    (h : l[i]? = Option.some c) : i < l.length := by
  by_contra hge
  push_neg at hge
  rw [List.getElem?_eq_none hge] at h
  cases h

theorem runLen_le (p : Char → Bool) (s : Str) : runLen p s ≤ s.length :=
  (List.takeWhile_sublist p).length_le

theorem isDigitAt_lt {s : Str} {i : Nat} (h : isDigitAt s i = true) :
    i < s.length := by
  unfold isDigitAt at h
  cases hg : s[i]? with
  | some c => exact getElem?_some_lt hg
  | none => rw [hg] at h; cases h

theorem pTruncate_le (s : Str) {n : Nat} (h : 1 ≤ n) :
    (pTruncate s n).length ≤ n := by
  unfold pTruncate
  by_cases hle : (collapseWs s).length ≤ n
  · rwa [if_pos hle]
  · rw [if_neg hle, List.length_append]
    have h1 := (pyRstrip_isPre ((collapseWs s).take (n - 1))).length_le
    have h2 := List.length_take_le (n - 1) (collapseWs s)
    simp only [List.length_singleton]
    omega

theorem subScanF_le {matchAt : Bool → Str → Option (Nat × Str)}
    (hm : ∀ prevW s n rep, matchAt prevW s = Option.some (n, rep) →
      rep.length ≤ n ∧ n ≤ s.length) :
    ∀ (fuel : Nat) (prevW : Bool) (s : Str),
      (subScanF matchAt fuel prevW s).length ≤ s.length := by
  intro fuel
  induction fuel with
  | zero => intro prevW s; simp [subScanF]
  | succ f ih =>
    intro prevW s
    cases s with
    | nil => simp [subScanF]
    | cons c rest =>
      rw [subScanF]
      split
      next n rep hma =>
        obtain ⟨h1, h2⟩ := hm _ _ _ _ hma
        by_cases hn : n = 0
        · rw [if_pos hn]
          simp only [List.length_cons]
          have := ih (isPyWord c) rest
          omega
        · rw [if_neg hn, List.length_append]
          have h3 := ih (isWordAt (c :: rest) (n - 1)) ((c :: rest).drop n)
          rw [List.length_drop] at h3
          simp only [List.length_cons] at h2 h3 ⊢
          omega
      next hma =>
        simp only [List.length_cons]
        have := ih (isPyWord c) rest
        omega

theorem reSub_le {matchAt : Bool → Str → Option (Nat × Str)}
    (hm : ∀ prevW s n rep, matchAt prevW s = Option.some (n, rep) →
      rep.length ≤ n ∧ n ≤ s.length) (s : Str) :
    (reSub matchAt s).length ≤ s.length :=
  subScanF_le hm s.length false s

theorem emailDomainAt_bounds {t : Str} :
    ∀ {r n : Nat}, emailDomainAt t r = Option.some n →
      4 ≤ n ∧ n ≤ t.length := by
  intro r
  induction r with
  | zero => intro n h; cases h
  | succ k ih =>
    intro n h
    rw [emailDomainAt] at h
    by_cases hc : t[k + 1]? = Option.some '.' ∧
        2 ≤ runLen isAsciiLetter (t.drop (k + 2)) ∧
        ¬ isWordAt t (k + 2 + runLen isAsciiLetter (t.drop (k + 2)))
    · rw [if_pos hc] at h
      rcases Option.some.inj h with rfl
      have hlt := getElem?_some_lt hc.1
      have hml := runLen_le isAsciiLetter (t.drop (k + 2))
      rw [List.length_drop] at hml
      have := hc.2.1
      omega
    · rw [if_neg hc] at h
      exact ih h

theorem emailTail_bounds {s : Str} {L n : Nat}
    (hAt : s[L]? = Option.some '@') (h : emailTail s L = Option.some n) :
    L + 5 ≤ n ∧ n ≤ s.length := by
  unfold emailTail at h
  cases hd : emailDomainAt (s.drop (L + 1))
      (runLen isEmailDomain (s.drop (L + 1))) with
  | none => rw [hd] at h; cases h
  | some m =>
    rw [hd] at h
    rcases Option.some.inj h with rfl
    obtain ⟨h1, h2⟩ := emailDomainAt_bounds hd
    rw [List.length_drop] at h2
    have := getElem?_some_lt hAt
    omega

theorem emailAt_bounds {prevW : Bool} {s : Str} {n : Nat}
    (h : emailAt prevW s = Option.some n) : 3 ≤ n ∧ n ≤ s.length := by
  unfold emailAt at h
  by_cases h0 : runLen isEmailLocal s = 0
  · rw [if_pos h0] at h; cases h
  · rw [if_neg h0] at h
    by_cases hb : isWordAt s 0 = prevW
    · rw [if_pos hb] at h; cases h
    · rw [if_neg hb] at h
      by_cases hat : s[runLen isEmailLocal s]? = Option.some '@'
      · rw [if_pos hat] at h
        obtain ⟨h1, h2⟩ := emailTail_bounds hat h
        omega
      · rw [if_neg hat] at h; cases h

theorem urlSplit_bounds :
    ∀ {cs : Str} {afterW : Bool} {j : Nat},
      urlSplit cs afterW = Option.some j → 1 ≤ j ∧ j ≤ cs.length := by
  intro cs
  induction cs with
  | nil => intro afterW j h; cases h
  | cons c rest ih =>
    intro afterW j h
    cases rest with
    | nil =>
      rw [urlSplit] at h
      by_cases hb : isPyWord c ≠ afterW
      · rw [if_pos hb] at h
        rcases Option.some.inj h with rfl
        exact ⟨le_refl 1, by simp⟩
      · rw [if_neg hb] at h; cases h
    | cons d rest2 =>
      rw [urlSplit] at h
      cases hrec : urlSplit (d :: rest2) afterW with
      | some j2 =>
        rw [hrec] at h
        rcases Option.some.inj h with rfl
        obtain ⟨ih1, ih2⟩ := ih hrec
        simp only [List.length_cons] at ih2 ⊢
        omega
      | none =>
        rw [hrec] at h
        by_cases hb : isPyWord c ≠ isPyWord d
        · rw [if_pos hb] at h
          rcases Option.some.inj h with rfl
          simp only [List.length_cons]
          omega
        · rw [if_neg hb] at h; cases h

theorem urlAt_bounds {prevW : Bool} {s : Str} {n : Nat}
    (h : urlAt prevW s = Option.some n) : 3 ≤ n ∧ n ≤ s.length := by
  unfold urlAt at h
  by_cases hp : prevW
  · rw [if_pos hp] at h; cases h
  · rw [if_neg hp] at h
    by_cases h8 : "https://".data <+: s
    · rw [if_pos h8] at h
      cases hsp : urlSplit ((s.drop 8).takeWhile (fun c => !isPySpace c))
          (isWordAt s (8 + runLen (fun c => !isPySpace c) (s.drop 8))) with
      | some j =>
        rw [hsp] at h
        rcases Option.some.inj h with rfl
        obtain ⟨hj1, hj2⟩ := urlSplit_bounds hsp
        have hr : ((s.drop 8).takeWhile (fun c => !isPySpace c)).length ≤
            (s.drop 8).length := (List.takeWhile_sublist _).length_le
        rw [List.length_drop] at hr
        have hlen := h8.length_le
        simp only [String.length_data] at hlen
        omega
      | none => rw [hsp] at h; cases h
    · rw [if_neg h8] at h
      by_cases h7 : "http://".data <+: s
      · rw [if_pos h7] at h
        cases hsp : urlSplit ((s.drop 7).takeWhile (fun c => !isPySpace c))
            (isWordAt s (7 + runLen (fun c => !isPySpace c) (s.drop 7))) with
        | some j =>
          rw [hsp] at h
          rcases Option.some.inj h with rfl
          obtain ⟨hj1, hj2⟩ := urlSplit_bounds hsp
          have hr : ((s.drop 7).takeWhile (fun c => !isPySpace c)).length ≤
              (s.drop 7).length := (List.takeWhile_sublist _).length_le
          rw [List.length_drop] at hr
          have hlen := h7.length_le
          simp only [String.length_data] at hlen
          omega
        | none => rw [hsp] at h; cases h
      · rw [if_neg h7] at h; cases h

theorem skKeyAt_bounds {prevW : Bool} {s : Str} {n : Nat}
    (h : skKeyAt prevW s = Option.some n) : 3 ≤ n ∧ n ≤ s.length := by
  unfold skKeyAt at h
  by_cases hp : prevW
  · rw [if_pos hp] at h; cases h
  · rw [if_neg hp] at h
    by_cases h3 : "sk-".data <+: s
    · rw [if_pos h3] at h
      by_cases hc : 16 ≤ runLen isAlnum (s.drop 3) ∧
          ¬ isWordAt s (3 + runLen isAlnum (s.drop 3))
      · rw [if_pos hc] at h
        rcases Option.some.inj h with rfl
        have hr := runLen_le isAlnum (s.drop 3)
        rw [List.length_drop] at hr
        have hlen := h3.length_le
        simp only [String.length_data] at hlen
        have := hc.1
        omega
      · rw [if_neg hc] at h; cases h
    · rw [if_neg h3] at h; cases h

theorem hexSecretAt_bounds {prevW : Bool} {s : Str} {n : Nat}
    (h : hexSecretAt prevW s = Option.some n) : 3 ≤ n ∧ n ≤ s.length := by
  unfold hexSecretAt at h
  by_cases hp : prevW
  · rw [if_pos hp] at h; cases h
  · rw [if_neg hp] at h
    by_cases hc : 32 ≤ runLen isHexC s ∧ runLen isHexC s ≤ 128 ∧
        ¬ isWordAt s (runLen isHexC s)
    · rw [if_pos hc] at h
      rcases Option.some.inj h with rfl
      have := runLen_le isHexC s
      have := hc.1
      omega
    · rw [if_neg hc] at h; cases h

theorem phoneCore_bounds {u : Str} :
    ∀ {r n : Nat}, phoneCore u r = Option.some n →
      9 ≤ n ∧ n ≤ u.length + 1 := by
  intro r
  induction r with
  | zero => intro n h; cases h
  | succ m ih =>
    intro n h
    rw [phoneCore] at h
    by_cases hc : 7 ≤ m + 1 ∧ isDigitAt u (m + 1) ∧ ¬ isWordAt u (m + 2)
    · rw [if_pos hc] at h
      rcases Option.some.inj h with rfl
      have := isDigitAt_lt hc.2.1
      have := hc.1
      omega
    · rw [if_neg hc] at h
      exact ih h

theorem phonePlus_bounds {s : Str} {n : Nat}
    (h : phonePlus s = Option.some n) : 3 ≤ n ∧ n ≤ s.length + 1 := by
  cases s with
  | nil => cases h
  | cons d u =>
    rw [phonePlus] at h
    by_cases hd : isDigitC d
    · rw [if_pos hd] at h
      obtain ⟨m, hcore, rfl⟩ := Option.map_eq_some'.mp h
      obtain ⟨h1, h2⟩ := phoneCore_bounds hcore
      simp only [List.length_cons]
      omega
    · rw [if_neg hd] at h; cases h

theorem phoneAt_bounds {prevW : Bool} {s : Str} {n : Nat}
    (h : phoneAt prevW s = Option.some n) : 3 ≤ n ∧ n ≤ s.length := by
  cases s with
  | nil => rw [phoneAt] at h; cases h
  | cons c rest =>
    rw [phoneAt] at h
    by_cases hplus : c = '+'
    · rw [if_pos hplus] at h
      by_cases hp : prevW
      · rw [if_pos hp] at h
        obtain ⟨h1, h2⟩ := phonePlus_bounds h
        simp only [List.length_cons]
        omega
      · rw [if_neg hp] at h; cases h
    · rw [if_neg hplus] at h
      by_cases hd : isDigitC c
      · rw [if_pos hd] at h
        by_cases hp : prevW
        · rw [if_pos hp] at h; cases h
        · rw [if_neg hp] at h
          obtain ⟨h1, h2⟩ := phoneCore_bounds h
          simp only [List.length_cons]
          omega
      · rw [if_neg hd] at h; cases h

theorem ccardEnds_le {s : Str} :
    ∀ {fuel i : Nat}, ∀ e ∈ ccardEnds s fuel i, e ≤ s.length := by
  intro fuel
  induction fuel with
  | zero => intro i e he; cases he
  | succ f ih =>
    intro i e he
    rw [ccardEnds] at he
    by_cases hd : isDigitAt s i
    · rw [if_pos hd] at he
      rcases List.mem_cons.mp he with rfl | he2
      · exact isDigitAt_lt hd
      · exact ih _ he2
    · rw [if_neg hd] at he; cases he

theorem ccardEnds_get {s : Str} :
    ∀ {fuel i k e : Nat}, (ccardEnds s fuel i)[k]? = Option.some e →
      i + 1 + k ≤ e := by
  intro fuel
  induction fuel with
  | zero =>
    intro i k e h
    simp [ccardEnds] at h
  | succ f ih =>
    intro i k e h
    rw [ccardEnds] at h
    by_cases hd : isDigitAt s i
    · rw [if_pos hd] at h
      cases k with
      | zero =>
        rw [List.getElem?_cons_zero] at h
        rcases Option.some.inj h with rfl
        omega
      | succ k2 =>
        rw [List.getElem?_cons_succ] at h
        have := ih h
        omega
    · rw [if_neg hd] at h
      simp at h

theorem ccardSearch_invariant {s : Str} :
    ∀ {l : List Nat} {cnt : Nat},
      (∀ j e, l[j]? = Option.some e → cnt - j ≤ e) →
      ∀ {e : Nat}, ccardSearch s cnt l = Option.some e →
        13 ≤ e ∧ e ∈ l := by
  intro l
  induction l with
  | nil => intro cnt _ e h; cases h
  | cons a rest ih =>
    intro cnt hinv e h
    rw [ccardSearch] at h
    by_cases hc : 13 ≤ cnt ∧ ¬ isWordAt s a
    · rw [if_pos hc] at h
      rcases Option.some.inj h with rfl
      have := hinv 0 a (by rw [List.getElem?_cons_zero])
      exact ⟨by omega, List.mem_cons_self a rest⟩
    · rw [if_neg hc] at h
      have hinv2 : ∀ j e2, rest[j]? = Option.some e2 → cnt - 1 - j ≤ e2 := by
        intro j e2 hj
        have := hinv (j + 1) e2 (by rwa [List.getElem?_cons_succ])
        omega
      obtain ⟨h1, h2⟩ := ih hinv2 h
      exact ⟨h1, List.mem_cons_of_mem a h2⟩

theorem ccardAt_bounds {prevW : Bool} {s : Str} {n : Nat}
    (h : ccardAt prevW s = Option.some n) : 3 ≤ n ∧ n ≤ s.length := by
  unfold ccardAt at h
  by_cases hp : prevW
  · rw [if_pos hp] at h; cases h
  · rw [if_neg hp] at h
    have hinv : ∀ j e, (ccardEnds s 19 0).reverse[j]? = Option.some e →
        (ccardEnds s 19 0).length - j ≤ e := by
      intro j e hj
      have hjlt : j < (ccardEnds s 19 0).reverse.length := by
        by_contra hge
        push_neg at hge
        rw [List.getElem?_eq_none hge] at hj
        cases hj
      rw [List.length_reverse] at hjlt
      rw [List.getElem?_reverse hjlt] at hj
      have := ccardEnds_get hj
      omega
    obtain ⟨h1, h2⟩ := ccardSearch_invariant hinv h
    rw [List.mem_reverse] at h2
    exact ⟨by omega, ccardEnds_le n h2⟩

theorem redactAt_bounds {X : Bool → Str → Option Nat}
    (hx : ∀ prevW s n, X prevW s = Option.some n → 3 ≤ n ∧ n ≤ s.length) :
    ∀ prevW s n rep, redactAt X prevW s = Option.some (n, rep) →
      rep.length ≤ n ∧ n ≤ s.length := by
  intro prevW s n rep h
  unfold redactAt at h
  cases hX : X prevW s with
  | none => rw [hX] at h; cases h
  | some m =>
    rw [hX] at h
    have heq := Option.some.inj h
    rw [Prod.mk.injEq] at heq
    obtain ⟨rfl, rfl⟩ := heq
    obtain ⟨h1, h2⟩ := hx _ _ _ hX
    refine ⟨?_, h2⟩
    have hml : ("[…]".data).length = 3 := by decide
    omega

theorem scrubPre_le (t : Str) : (scrubPre t).length ≤ t.length := by
  unfold scrubPre
  calc (reSub (redactAt phoneAt)
      (reSub (redactAt hexSecretAt)
        (reSub (redactAt skKeyAt)
          (reSub (redactAt urlAt)
            (reSub (redactAt emailAt) t))))).length
      ≤ (reSub (redactAt hexSecretAt)
          (reSub (redactAt skKeyAt)
            (reSub (redactAt urlAt)
              (reSub (redactAt emailAt) t)))).length :=
        reSub_le (redactAt_bounds fun _ _ _ => phoneAt_bounds) _
    _ ≤ (reSub (redactAt skKeyAt)
          (reSub (redactAt urlAt)
            (reSub (redactAt emailAt) t))).length :=
        reSub_le (redactAt_bounds fun _ _ _ => hexSecretAt_bounds) _
    _ ≤ (reSub (redactAt urlAt) (reSub (redactAt emailAt) t)).length :=
        reSub_le (redactAt_bounds fun _ _ _ => skKeyAt_bounds) _
    _ ≤ (reSub (redactAt emailAt) t).length :=
        reSub_le (redactAt_bounds fun _ _ _ => urlAt_bounds) _
    _ ≤ t.length := reSub_le (redactAt_bounds fun _ _ _ => emailAt_bounds) _

theorem scrubSensitive_le (t : Str) :
    (scrubSensitive t).length ≤ t.length := by
  unfold scrubSensitive
  by_cases h0 : t = []
  · rw [if_pos h0]
  · rw [if_neg h0]
    by_cases h12 : 12 ≤ ((scrubPre t).filter isDigitC).length
    · rw [if_pos h12]
      calc (reSub (redactAt ccardAt) (scrubPre t)).length
          ≤ (scrubPre t).length :=
            reSub_le (redactAt_bounds fun _ _ _ => ccardAt_bounds) _
        _ ≤ t.length := scrubPre_le t
    · rw [if_neg h12]
      exact scrubPre_le t

/-! ## Claim C4 — the parser always returns 3..40 slides and a title -/

theorem padGoP_ge (inc : Bool) :
    ∀ (fuel : Nat) (out : List PSlide),
      min 3 (out.length + fuel) ≤ (padGoP inc fuel out).length := by
  intro fuel
  induction fuel with
  | zero => intro out; rw [padGoP]; omega
  | succ f ih =>
    intro out
    rw [padGoP]
    by_cases hl : out.length < 3
    · rw [if_pos hl]
      refine le_trans (le_of_eq ?_) (ih _)
      simp only [List.length_append, List.length_singleton]
      omega
    · rw [if_neg hl]
      omega

theorem ensureMinP_ge (inc : Bool) (l : List PSlide) :
    3 ≤ (ensureMinP inc l).length := by
  unfold ensureMinP
  by_cases h3 : 3 ≤ l.length
  · rwa [if_pos h3]
  · rw [if_neg h3]
    have := padGoP_ge inc 3 (ensureGoP inc [] l)
    omega

theorem finalSlides_length (hash : Str → Int) (tokens : List Token)
    (raw guidance : Str) (inc : Bool) :
    3 ≤ (finalSlides hash tokens raw guidance inc).length ∧
      (finalSlides hash tokens raw guidance inc).length ≤ 40 := by
  unfold finalSlides
  rw [List.length_take]
  have := ensureMinP_ge inc (cleanupPass inc
    (applyDisclaimer inc raw (phase2Slides hash raw guidance inc
      (pass1Slides tokens guidance inc))))
  omega

theorem deckFallback_ne (guidance : Str) : deckFallback guidance ≠ [] := by
  unfold deckFallback
  by_cases hg : guidance ≠ []
  · rw [if_pos hg]
    simp
  · rw [if_neg hg]
    decide

theorem deckTitle_ne (guidance : Str) (cleaned : List PSlide) :
    deckTitle guidance cleaned ≠ [] := by
  unfold deckTitle
  split
  next s _ =>
    by_cases ht : s.title = []
    · rw [if_pos ht]
      exact deckFallback_ne guidance
    · rwa [if_neg ht]
  next => exact deckFallback_ne guidance

/-- C4: for every markdown-it token stream, input text, guidance string
and notes flag, `heuristic_outline` returns an outline whose deck title is
nonempty and whose slide list has between MIN_SLIDES = 3 and
MAX_SLIDES = 40 slides (totality holds by construction: every stage is a
total function). -/
theorem c4_parser_bounds (hash : Str → Int) (tokens : List Token)
    (raw guidance : Str) (includeNotes : Bool) :
    (heuristicOutline hash tokens raw guidance includeNotes).title ≠ [] ∧
    3 ≤ (heuristicOutline hash tokens raw guidance includeNotes).slides.length ∧
    (heuristicOutline hash tokens raw guidance includeNotes).slides.length ≤
      40 := by
  refine ⟨deckTitle_ne guidance _, ?_, ?_⟩
  · exact (finalSlides_length hash tokens raw guidance includeNotes).1
  · exact (finalSlides_length hash tokens raw guidance includeNotes).2

/-! ## Claim C5 — bullet caps, bullet lengths and deduplication -/

/-- The parser-side bullet invariant: at most 7 entries, each at most
MAX_CHARS_PER_BULLET = 160 characters, no duplicates. -/
def BulletsOk (l : List Str) : Prop :=
  l.length ≤ 7 ∧ l.Nodup ∧ ∀ b ∈ l, b.length ≤ 160

theorem bulletsOk_sublist {l m : List Str} (h : BulletsOk m)
    (hs : l.Sublist m) : BulletsOk l :=
  ⟨hs.length_le.trans h.1, hs.nodup h.2.1,
    fun b hb => h.2.2 b (hs.mem hb)⟩

theorem cleanedBullets_len (s : PSlide) :
    ∀ b ∈ cleanedBullets s, b.length ≤ 160 := by
  intro b hb
  unfold cleanedBullets at hb
  have h1 := (pyDedup_sublist _).mem hb
  rcases List.mem_map.mp h1 with ⟨b0, _, rfl⟩
  calc (scrubSensitive (pTruncate b0 160)).length
      ≤ (pTruncate b0 160).length := scrubSensitive_le _
    _ ≤ 160 := pTruncate_le b0 (by omega)

theorem cleanupSlide_ok (inc : Bool) (s : PSlide) :
    ∀ t ∈ cleanupSlide inc s, BulletsOk t.bullets := by
  intro t ht
  unfold cleanupSlide at ht
  by_cases hc : cleanedTitle s ≠ [] ∨ (cleanedBullets s).take 7 ≠ []
  · rw [if_pos hc] at ht
    rcases List.mem_singleton.mp ht with rfl
    refine ⟨by simpa using List.length_take_le 7 _, ?_, ?_⟩
    · exact (List.take_sublist _ _).nodup (pyDedup_nodup _)
    · intro b hb
      exact cleanedBullets_len s b ((List.take_sublist _ _).mem hb)
  · rw [if_neg hc] at ht
    cases ht

theorem cleanupPass_ok (inc : Bool) (l : List PSlide) :
    ∀ t ∈ cleanupPass inc l, BulletsOk t.bullets := by
  intro t ht
  rcases List.mem_flatMap.mp ht with ⟨s, _, hmem⟩
  exact cleanupSlide_ok inc s t hmem

theorem ensureGoP_ok (inc : Bool) :
    ∀ (l out : List PSlide), (∀ x ∈ out, BulletsOk x.bullets) →
      (∀ x ∈ l, BulletsOk x.bullets) →
      ∀ x ∈ ensureGoP inc out l, BulletsOk x.bullets := by
  intro l
  induction l with
  | nil =>
    intro out hout _ x hx
    rw [ensureGoP] at hx
    exact hout x hx
  | cons s rest ih =>
    intro out hout hl x hx
    rw [ensureGoP] at hx
    have hs := hl s (List.mem_cons_self s rest)
    have hrest : ∀ x ∈ rest, BulletsOk x.bullets :=
      fun x hx => hl x (List.mem_cons_of_mem s hx)
    by_cases hc : out.length + 1 < 3 ∧ 3 < s.bullets.length
    · rw [if_pos hc] at hx
      refine ih _ ?_ hrest x hx
      intro y hy
      rcases List.mem_append.mp hy with hy1 | hy2
      · exact hout y hy1
      · simp only [List.mem_cons, List.not_mem_nil, or_false] at hy2
        rcases hy2 with rfl | rfl
        · exact bulletsOk_sublist hs (List.take_sublist 3 _)
        · exact bulletsOk_sublist hs
            ((List.take_sublist 3 _).trans (List.drop_sublist 3 _))
    · rw [if_neg hc] at hx
      refine ih _ ?_ hrest x hx
      intro y hy
      rcases List.mem_append.mp hy with hy1 | hy2
      · exact hout y hy1
      · rcases List.mem_singleton.mp hy2 with rfl
        exact hs

theorem padGoP_ok (inc : Bool) :
    ∀ (fuel : Nat) (out : List PSlide), (∀ x ∈ out, BulletsOk x.bullets) →
      ∀ x ∈ padGoP inc fuel out, BulletsOk x.bullets := by
  intro fuel
  induction fuel with
  | zero =>
    intro out hout x hx
    rw [padGoP] at hx
    exact hout x hx
  | succ f ih =>
    intro out hout x hx
    rw [padGoP] at hx
    by_cases hl : out.length < 3
    · rw [if_pos hl] at hx
      refine ih _ ?_ x hx
      intro y hy
      rcases List.mem_append.mp hy with hy1 | hy2
      · exact hout y hy1
      · rcases List.mem_singleton.mp hy2 with rfl
        exact ⟨by simp, List.nodup_nil, by simp⟩
    · rw [if_neg hl] at hx
      exact hout x hx

theorem ensureMinP_ok (inc : Bool) (l : List PSlide)
    (h : ∀ x ∈ l, BulletsOk x.bullets) :
    ∀ x ∈ ensureMinP inc l, BulletsOk x.bullets := by
  intro x hx
  unfold ensureMinP at hx
  by_cases h3 : 3 ≤ l.length
  · rw [if_pos h3] at hx
    exact h x hx
  · rw [if_neg h3] at hx
    exact padGoP_ok inc 3 _ (ensureGoP_ok inc l [] (by simp) h) x hx

theorem finalSlides_ok (hash : Str → Int) (tokens : List Token)
    (raw guidance : Str) (inc : Bool) :
    ∀ s ∈ finalSlides hash tokens raw guidance inc, BulletsOk s.bullets := by
  intro s hs
  unfold finalSlides at hs
  have hmem := (List.take_sublist 40 _).mem hs
  exact ensureMinP_ok inc _ (cleanupPass_ok inc _) s hmem

/-- C5: every slide produced by `heuristic_outline` carries at most
MAX_BULLETS_PER_SLIDE = 7 bullets, each at most MAX_CHARS_PER_BULLET = 160
characters, with no duplicate entries; and every slide of a validated
`Outline` carries at most 7 bullets, each at most MAX_BULLET_CHARS = 200
characters, with no duplicate entries. -/
theorem c5_bullet_bounds (hash : Str → Int) (tokens : List Token)
    (raw guidance : Str) (includeNotes : Bool) (title : Str)
    (slides : List RawSlide) (est : Option Int) :
    (∀ s ∈ (heuristicOutline hash tokens raw guidance includeNotes).slides,
      s.bullets.length ≤ 7 ∧ s.bullets.Nodup ∧
        ∀ b ∈ s.bullets, b.length ≤ 160) ∧
    (∀ s ∈ (mkOutlineRaw title slides est).slides,
      s.bullets.length ≤ 7 ∧ s.bullets.Nodup ∧
        ∀ b ∈ s.bullets, b.length ≤ 200) := by
  constructor
  · intro s hs
    exact finalSlides_ok hash tokens raw guidance includeNotes s hs
  · intro s hs
    obtain ⟨-, hg, -, -, -⟩ := mkOutlineRaw_good title slides est
    obtain ⟨-, hb, hnd, hlen, -⟩ := hg s hs
    exact ⟨hlen, hnd, fun b hbm => (hb b hbm).2.1⟩

/-! ## Claim C3 — redaction of emails, keys and URLs -/

/-- Word-ness of the character before position `i` (the left context of a
`\b` at `i`; the start of the string counts as non-word). -/
def prevWordAt (s : Str) : Nat → Bool
  | 0 => false
  | j + 1 => isWordAt s j

/-- `m` occurs in `s` as a full match of the matcher `mat`: at some
position of `s` (with that position's word-boundary context) the matcher
matches exactly `m`. -/
def matchOfB (mat : Bool → Str → Option Nat) (s m : Str) : Bool :=
  (List.range s.length).any (fun i =>
    mat (prevWordAt s i) (s.drop i) == Option.some m.length &&
    decide (m <+: s.drop i))

/-- Every bullet of the final cleanup is the scrub of a truncation. -/
theorem cleanedBullets_img (s : PSlide) :
    ∀ b ∈ cleanedBullets s, ∃ t, b = scrubSensitive (pTruncate t 160) := by
  intro b hb
  unfold cleanedBullets at hb
  have h1 := (pyDedup_sublist _).mem hb
  rcases List.mem_map.mp h1 with ⟨b0, _, rfl⟩
  exact ⟨b0, rfl⟩

theorem cleanupSlide_img (inc : Bool) (s : PSlide) :
    ∀ t ∈ cleanupSlide inc s, ∀ b ∈ t.bullets,
      ∃ u, b = scrubSensitive (pTruncate u 160) := by
  intro t ht b hb
  unfold cleanupSlide at ht
  by_cases hc : cleanedTitle s ≠ [] ∨ (cleanedBullets s).take 7 ≠ []
  · rw [if_pos hc] at ht
    rcases List.mem_singleton.mp ht with rfl
    exact cleanedBullets_img s b ((List.take_sublist _ _).mem hb)
  · rw [if_neg hc] at ht
    cases ht

theorem cleanupPass_img (inc : Bool) (l : List PSlide) :
    ∀ t ∈ cleanupPass inc l, ∀ b ∈ t.bullets,
      ∃ u, b = scrubSensitive (pTruncate u 160) := by
  intro t ht
  rcases List.mem_flatMap.mp ht with ⟨s, _, hmem⟩
  exact cleanupSlide_img inc s t hmem

theorem ensureGoP_img (inc : Bool) :
    ∀ (l out : List PSlide),
      (∀ x ∈ out, ∀ b ∈ x.bullets, ∃ u, b = scrubSensitive (pTruncate u 160)) →
      (∀ x ∈ l, ∀ b ∈ x.bullets, ∃ u, b = scrubSensitive (pTruncate u 160)) →
      ∀ x ∈ ensureGoP inc out l, ∀ b ∈ x.bullets,
        ∃ u, b = scrubSensitive (pTruncate u 160) := by
  intro l
  induction l with
  | nil =>
    intro out hout _ x hx
    rw [ensureGoP] at hx
    exact hout x hx
  | cons s rest ih =>
    intro out hout hl x hx
    rw [ensureGoP] at hx
    have hs := hl s (List.mem_cons_self s rest)
    have hrest : ∀ x ∈ rest, ∀ b ∈ x.bullets,
        ∃ u, b = scrubSensitive (pTruncate u 160) :=
      fun x hx => hl x (List.mem_cons_of_mem s hx)
    by_cases hc : out.length + 1 < 3 ∧ 3 < s.bullets.length
    · rw [if_pos hc] at hx
      refine ih _ ?_ hrest x hx
      intro y hy
      rcases List.mem_append.mp hy with hy1 | hy2
      · exact hout y hy1
      · simp only [List.mem_cons, List.not_mem_nil, or_false] at hy2
        rcases hy2 with rfl | rfl
        · exact fun b hb => hs b ((List.take_sublist 3 _).mem hb)
        · exact fun b hb => hs b
            (((List.take_sublist 3 _).trans (List.drop_sublist 3 _)).mem hb)
    · rw [if_neg hc] at hx
      refine ih _ ?_ hrest x hx
      intro y hy
      rcases List.mem_append.mp hy with hy1 | hy2
      · exact hout y hy1
      · rcases List.mem_singleton.mp hy2 with rfl
        exact hs

theorem padGoP_img (inc : Bool) :
    ∀ (fuel : Nat) (out : List PSlide),
      (∀ x ∈ out, ∀ b ∈ x.bullets, ∃ u, b = scrubSensitive (pTruncate u 160)) →
      ∀ x ∈ padGoP inc fuel out, ∀ b ∈ x.bullets,
        ∃ u, b = scrubSensitive (pTruncate u 160) := by
  intro fuel
  induction fuel with
  | zero =>
    intro out hout x hx
    rw [padGoP] at hx
    exact hout x hx
  | succ f ih =>
    intro out hout x hx
    rw [padGoP] at hx
    by_cases hl : out.length < 3
    · rw [if_pos hl] at hx
      refine ih _ ?_ x hx
      intro y hy
      rcases List.mem_append.mp hy with hy1 | hy2
      · exact hout y hy1
      · rcases List.mem_singleton.mp hy2 with rfl
        intro b hb
        cases hb
    · rw [if_neg hl] at hx
      exact hout x hx

theorem finalSlides_img (hash : Str → Int) (tokens : List Token)
    (raw guidance : Str) (inc : Bool) :
    ∀ s ∈ finalSlides hash tokens raw guidance inc, ∀ b ∈ s.bullets,
      ∃ u, b = scrubSensitive (pTruncate u 160) := by
  intro s hs
  unfold finalSlides at hs
  have hmem := (List.take_sublist 40 _).mem hs
  unfold ensureMinP at hmem
  by_cases h3 : 3 ≤ (cleanupPass inc (applyDisclaimer inc raw
      (phase2Slides hash raw guidance inc
        (pass1Slides tokens guidance inc)))).length
  · rw [if_pos h3] at hmem
    exact cleanupPass_img inc _ s hmem
  · rw [if_neg h3] at hmem
    exact padGoP_img inc 3 _
      (ensureGoP_img inc _ [] (by simp) (cleanupPass_img inc _)) s hmem

/-- C3 is violated as stated: an email address that `RE_EMAIL` matches in
the input can survive verbatim inside an output bullet when a second copy
sits in a longer word-character run whose context defeats the regex (here
`xxa@b.co5yy`: the digit `5` kills the trailing `\b` and every domain
backtrack). The input `"a@b.co see xxa@b.co5yy"` contains the full match
`a@b.co`, yet the parser's first slide carries the bullet
`"[…] see xxa@b.co5yy"`, which contains `a@b.co` verbatim. -/
theorem c3_redaction_counterexample :
    matchOfB emailAt "a@b.co see xxa@b.co5yy".data "a@b.co".data = true ∧
    (⟨"Overview".data, ["[…] see xxa@b.co5yy".data], "auto".data,
        Option.none⟩ : PSlide) ∈
      (heuristicOutline (fun _ => 0)
        [⟨TokType.paragraphOpen, [], []⟩,
         ⟨TokType.inline, "a@b.co see xxa@b.co5yy".data, []⟩,
         ⟨TokType.other, [], []⟩]
        "a@b.co see xxa@b.co5yy".data [] false).slides ∧
    "a@b.co".data <:+: "[…] see xxa@b.co5yy".data := by
  refine ⟨by decide, by decide, ?_⟩
  exact ⟨"[…] see xx".data, "5yy".data, by decide⟩

/-- C3, amended: every bullet string in the returned outline is the image
under `_scrub_sensitive` of a 160-truncated string — i.e. the redaction
pass (which replaces every `RE_EMAIL`/`RE_URL`/`RE_OPENAI_KEY`/
`RE_HEX_SECRET`/`RE_PHONE`/`RE_CCARD` match it finds with the marker
`"[…]"`) is the last content transformation applied to every bullet. Text
the regexes do not match at its position — such as an email embedded in a
longer word run — is outside the redaction guarantee. -/
theorem c3_redaction_amended (hash : Str → Int) (tokens : List Token)
    (raw guidance : Str) (includeNotes : Bool) :
    ∀ s ∈ (heuristicOutline hash tokens raw guidance includeNotes).slides,
      ∀ b ∈ s.bullets, ∃ u, b = scrubSensitive (pTruncate u 160) :=
  finalSlides_img hash tokens raw guidance includeNotes

/-- Concrete instance of the amended C3 at the counterexample input. -/
theorem c3_redaction_amended_witness :
    ∃ u, "[…] see xxa@b.co5yy".data = scrubSensitive (pTruncate u 160) :=
  c3_redaction_amended (fun _ => 0)
    [⟨TokType.paragraphOpen, [], []⟩,
     ⟨TokType.inline, "a@b.co see xxa@b.co5yy".data, []⟩,
     ⟨TokType.other, [], []⟩]
    "a@b.co see xxa@b.co5yy".data [] false
    ⟨"Overview".data, ["[…] see xxa@b.co5yy".data], "auto".data, Option.none⟩
    (by decide) "[…] see xxa@b.co5yy".data (by decide)

/-- Concrete instance of C5: the padded slide of an empty parse and the
fallback slide of an empty validated outline both satisfy the bounds. -/
theorem c5_bullet_bounds_witness :
    ((⟨"Slide 1".data, [], "Blank".data, Option.none⟩ : PSlide).bullets.length
        ≤ 7 ∧
      (⟨"Slide 1".data, [], "Blank".data, Option.none⟩ :
        PSlide).bullets.Nodup ∧
      ∀ b ∈ (⟨"Slide 1".data, [], "Blank".data, Option.none⟩ :
        PSlide).bullets, b.length ≤ 160) ∧
    (overviewSlide.bullets.length ≤ 7 ∧ overviewSlide.bullets.Nodup ∧
      ∀ b ∈ overviewSlide.bullets, b.length ≤ 200) :=
  ⟨(c5_bullet_bounds (fun _ => 0) [] [] [] false "T".data [] Option.none).1
      ⟨"Slide 1".data, [], "Blank".data, Option.none⟩ (by decide),
    (c5_bullet_bounds (fun _ => 0) [] [] [] false "T".data [] Option.none).2
      overviewSlide (by decide)⟩

end AutoPPT
